import Mathlib

/-!
# A verification development for `pkg/npm` (go-dep-apis)

The package is a thin client of the npm registry: three operations build a GET request,
execute it with the HTTP client of the client, read the whole body and decode it with
`encoding/json` into `RegistryMeta` or `Package`.

The embedding has three layers.

* The code of `npm.go` itself (`NewClient`, `WithHttpClient`, `GetMeta`, `GetPackage`,
  `GetPackageVersion`, the struct declarations with their field tags) is translated
  statement by statement.  Every call the source makes into the standard library is
  recorded as an `Event`, so that "which requests were issued" is a property of the result.
* What the source does not determine is a parameter, `Env`: which requests
  `http.NewRequestWithContext` rejects, what `(*http.Client).Do` returns, and the parsing
  of floats by `strconv.ParseFloat`.
* `json.Unmarshal` is modelled on JSON texts from the documented behaviour of
  `encoding/json`: a scanner for the JSON grammar, followed by the decoding rules for the
  struct types declared in `npm.go` (keys are matched to fields by name and otherwise up
  to letter case, unknown keys are skipped, `null` leaves a scalar or a struct as it is,
  the first type error is returned).  `json.Marshal` is modelled as far as the JSON value
  it writes.

Go strings are sequences of Unicode code points here, a Go `int` has 64 bits, and a Go map
is the list of its entries in increasing order of the keys.
-/

namespace Npm

/-! ## JSON texts -/

/-- A JSON value.  A number keeps its literal, as `encoding/json` hands the literal
to `strconv`; a string and an object key are kept unquoted. -/
inductive JSON where
  | null
  | bool (b : Bool)
  | num (lit : String)
  | str (s : String)
  | arr (xs : List JSON)
  | obj (ms : List (String × JSON))

/-- The nesting limit of the scanner of `encoding/json` (`maxNestingDepth`). -/
def maxNestingDepth : Nat := 10000

/-- White space of the JSON grammar. -/
def isSpace (c : Char) : Bool :=
  c == ' ' || c == '\t' || c == '\r' || c == '\n'

/-- Drop leading white space. -/
def skipSpace : List Char → List Char
  | [] => []
  | c :: cs => if isSpace c then skipSpace cs else c :: cs

/-- Decimal digit test. -/
def isDigit (c : Char) : Bool := '0' ≤ c && c ≤ '9'

/-- Split off the longest run of decimal digits. -/
def takeDigits : List Char → List Char × List Char
  | [] => ([], [])
  | c :: cs =>
    if isDigit c then
      let r := takeDigits cs
      (c :: r.1, r.2)
    else ([], c :: cs)

/-- The integer part of a number literal: `0`, or a non-zero digit followed by digits. -/
def scanInt : List Char → Option (List Char × List Char)
  | [] => none
  | c :: cs =>
    if c == '0' then some (['0'], cs)
    else if isDigit c then
      let r := takeDigits cs
      some (c :: r.1, r.2)
    else none

/-- The optional fraction of a number literal: `.` and at least one digit. -/
def scanFrac : List Char → Option (List Char × List Char)
  | '.' :: cs =>
    match takeDigits cs with
    | ([], _) => none
    | (ds, rest) => some ('.' :: ds, rest)
  | cs => some ([], cs)

/-- The optional exponent of a number literal: `e` or `E`, an optional sign, and at least
one digit. -/
def scanExp : List Char → Option (List Char × List Char)
  | [] => some ([], [])
  | c :: cs =>
    if c == 'e' || c == 'E' then
      match cs with
      | [] => none
      | s :: cs1 =>
        if s == '+' || s == '-' then
          match takeDigits cs1 with
          | ([], _) => none
          | (ds, rest) => some (c :: s :: ds, rest)
        else
          match takeDigits (s :: cs1) with
          | ([], _) => none
          | (ds, rest) => some (c :: ds, rest)
    else some ([], c :: cs)

/-- A number literal of the JSON grammar; the literal and the rest of the input. -/
def scanNumber (cs : List Char) : Option (List Char × List Char) :=
  let signed : List Char × List Char :=
    match cs with
    | '-' :: rest => (['-'], rest)
    | _ => ([], cs)
  match scanInt signed.2 with
  | none => none
  | some (ip, r1) =>
    match scanFrac r1 with
    | none => none
    | some (fp, r2) =>
      match scanExp r2 with
      | none => none
      | some (ep, r3) => some (signed.1 ++ ip ++ fp ++ ep, r3)

/-- Value of a hexadecimal digit. -/
def hexVal (c : Char) : Option Nat :=
  if '0' ≤ c && c ≤ '9' then some (c.toNat - '0'.toNat)
  else if 'a' ≤ c && c ≤ 'f' then some (c.toNat - 'a'.toNat + 10)
  else if 'A' ≤ c && c ≤ 'F' then some (c.toNat - 'A'.toNat + 10)
  else none

/-- Four hexadecimal digits as a number (`getu4` without the leading `\u`). -/
def hex4 (a b c d : Char) : Option Nat :=
  match hexVal a, hexVal b, hexVal c, hexVal d with
  | some x, some y, some z, some w => some (((x * 16 + y) * 16 + z) * 16 + w)
  | _, _, _, _ => none

/-- The replacement character U+FFFD. -/
def replacementChar : Char := Char.ofNat 0xFFFD

/-- The low surrogate escape that may follow a high surrogate escape. -/
def lowSurrogate : List Char → Option Nat
  | '\\' :: 'u' :: a :: b :: c :: d :: _ =>
    match hex4 a b c d with
    | some n => if 0xDC00 ≤ n ∧ n < 0xE000 then some n else none
    | none => none
  | _ => none

/-- The body of a string literal, after the opening quote: the unquoted text and the input
after the closing quote.  Control characters are rejected, escapes are decoded, a surrogate
pair is combined and an unpaired surrogate becomes U+FFFD, as `unquote` does. -/
def scanString : List Char → Option (List Char × List Char)
  | [] => none
  | '"' :: rest => some ([], rest)
  | '\\' :: 'u' :: a :: b :: c :: d :: rest =>
    match hex4 a b c d with
    | none => none
    | some n =>
      match scanString rest with
      | none => none
      | some (s, r) =>
        if 0xD800 ≤ n ∧ n < 0xE000 then
          if n < 0xDC00 then
            match lowSurrogate rest, s with
            | some m, _ :: s1 =>
              some (Char.ofNat (0x10000 + (n - 0xD800) * 0x400 + (m - 0xDC00)) :: s1, r)
            | _, _ => some (replacementChar :: s, r)
          else some (replacementChar :: s, r)
        else some (Char.ofNat n :: s, r)
  | '\\' :: e :: rest =>
    let unescaped : Option Char :=
      if e == '"' then some '"'
      else if e == '\\' then some '\\'
      else if e == '/' then some '/'
      else if e == 'b' then some (Char.ofNat 8)
      else if e == 'f' then some (Char.ofNat 12)
      else if e == 'n' then some '\n'
      else if e == 'r' then some '\r'
      else if e == 't' then some '\t'
      else none
    match unescaped with
    | none => none
    | some ch =>
      match scanString rest with
      | none => none
      | some (s, r) => some (ch :: s, r)
  | '\\' :: [] => none
  | ch :: rest =>
    if ch.toNat < 0x20 then none
    else
      match scanString rest with
      | none => none
      | some (s, r) => some (ch :: s, r)

/-- Strip a literal keyword from the front of the input. -/
def stripWord : List Char → List Char → Option (List Char)
  | [], cs => some cs
  | _ :: _, [] => none
  | w :: ws, c :: cs => if w == c then stripWord ws cs else none

mutual
/-- One JSON value at the head of the input (white space already skipped). -/
def parseValue : Nat → Nat → List Char → Option (JSON × List Char)
  | 0, _, _ => none
  | _ + 1, _, [] => none
  | fuel + 1, depth, c :: cs =>
    if c == '{' then
      if maxNestingDepth ≤ depth then none
      else
        match skipSpace cs with
        | '}' :: rest => some (.obj [], rest)
        | rest =>
          match parseMembers fuel (depth + 1) rest with
          | none => none
          | some (ms, r) => some (.obj ms, r)
    else if c == '[' then
      if maxNestingDepth ≤ depth then none
      else
        match skipSpace cs with
        | ']' :: rest => some (.arr [], rest)
        | rest =>
          match parseElems fuel (depth + 1) rest with
          | none => none
          | some (xs, r) => some (.arr xs, r)
    else if c == '"' then
      match scanString cs with
      | none => none
      | some (s, r) => some (.str (String.mk s), r)
    else if c == 't' then
      match stripWord ['r', 'u', 'e'] cs with
      | none => none
      | some r => some (.bool true, r)
    else if c == 'f' then
      match stripWord ['a', 'l', 's', 'e'] cs with
      | none => none
      | some r => some (.bool false, r)
    else if c == 'n' then
      match stripWord ['u', 'l', 'l'] cs with
      | none => none
      | some r => some (.null, r)
    else
      match scanNumber (c :: cs) with
      | none => none
      | some (lit, r) => some (.num (String.mk lit), r)
/-- The elements of a non-empty array, up to and including the closing bracket. -/
def parseElems : Nat → Nat → List Char → Option (List JSON × List Char)
  | 0, _, _ => none
  | fuel + 1, depth, cs =>
    match parseValue fuel depth cs with
    | none => none
    | some (v, r) =>
      match skipSpace r with
      | ',' :: r1 =>
        match parseElems fuel depth (skipSpace r1) with
        | none => none
        | some (vs, r2) => some (v :: vs, r2)
      | ']' :: r1 => some ([v], r1)
      | _ => none
/-- The members of a non-empty object, up to and including the closing brace. -/
def parseMembers : Nat → Nat → List Char → Option (List (String × JSON) × List Char)
  | 0, _, _ => none
  | fuel + 1, depth, cs =>
    match cs with
    | '"' :: cs1 =>
      match scanString cs1 with
      | none => none
      | some (k, r) =>
        match skipSpace r with
        | ':' :: r1 =>
          match parseValue fuel depth (skipSpace r1) with
          | none => none
          | some (v, r2) =>
            match skipSpace r2 with
            | ',' :: r3 =>
              match parseMembers fuel depth (skipSpace r3) with
              | none => none
              | some (ms, r4) => some ((String.mk k, v) :: ms, r4)
            | '}' :: r3 => some ([(String.mk k, v)], r3)
            | _ => none
        | _ => none
    | _ => none
end

/-- The JSON value a text denotes, `none` when the text is not syntactically valid JSON
(the `checkValid` pass of `json.Unmarshal`): one value, surrounded by optional white
space.  The fuel is an upper bound on the number of nested calls. -/
def parseJSON (body : String) : Option JSON :=
  match parseValue (2 * body.data.length + 2) 0 (skipSpace body.data) with
  | none => none
  | some (v, rest) =>
    match skipSpace rest with
    | [] => some v
    | _ :: _ => none

/-! ## Go values -/

/-- An error value.  The constructor tells the stage that failed: request construction,
the HTTP exchange, reading the body, the syntax check of `json.Unmarshal`
(`json.SyntaxError`) or a value that does not fit its target
(`json.UnmarshalTypeError`, with its `Value`). -/
inductive Error where
  | request (msg : String)
  | transport (msg : String)
  | read (msg : String)
  | badJSON
  | unmarshalType (value : String)
  deriving DecidableEq, Repr

/-- A `float64`.  Binary floating point is not interpreted: a value is known by its bit
pattern and produced only by the `parseFloat` of the environment. -/
structure Float64 where
  bits : Nat
  deriving DecidableEq, Repr

/-- The dynamic values of the loosely typed fields (`any`).  `json.Unmarshal` stores `nil`,
`bool`, `float64`, `string`, a non-nil `[]any` (`slice`) and a non-nil `map[string]any`
(`map`).  A program can store other values, which the decoder never produces: `nilSlice`
and `nilMap` are the nil `[]any` and the nil `map[string]any` held in an `any`, and `int`
stands for the other dynamic types. -/
inductive GoAny where
  | nil
  | bool (b : Bool)
  | float64 (f : Float64)
  | string (s : String)
  | slice (xs : List GoAny)
  | map (m : List (String × GoAny))
  | nilSlice
  | nilMap
  | int (n : Int)

/-- A Go map with string keys: `none` is the nil map, `some` lists the entries with the
keys in strictly increasing order. -/
abbrev GoMap (V : Type) := Option (List (String × V))

/-- The assignment `m[k] = v` on the entries of a map. -/
def mapSet {V : Type} : List (String × V) → String → V → List (String × V)
  | [], k, v => [(k, v)]
  | e :: m, k, v =>
    if k < e.1 then (k, v) :: e :: m
    else if k = e.1 then (k, v) :: m
    else e :: mapSet m k v

/-- The lookup `m[k]` on the entries of a map. -/
def mapGet {V : Type} : List (String × V) → String → Option V
  | [], _ => none
  | e :: m, k => if e.1 = k then some e.2 else mapGet m k

/-- Registry metadata, the struct `RegistryMeta`. -/
structure RegistryMeta where
  DBName : String
  DocCount : Int
  DocDelCount : Int
  UpdateSeq : Int
  PurgeSeq : Int
  CompactRunning : Bool
  DiskSize : Int
  DataSize : Int
  InstanceStartTime : String
  DiskFormatVersion : Int
  CommittedUpdateSeq : Int
  deriving DecidableEq, Repr

/-- The anonymous struct of the field `Time` of `Package`. -/
structure PackageTime where
  Created : String
  Modified : String
  deriving DecidableEq, Repr

/-- The anonymous struct of the fields `Author` of `Package` and of `Version`. -/
structure Author where
  Name : String
  Email : String
  URL : String
  deriving DecidableEq, Repr

/-- The anonymous struct of the fields `Repository` of `Package` and of `Version`
(`Typ` is the Go field `Type`). -/
structure Repository where
  Typ : String
  URL : String
  deriving DecidableEq, Repr

/-- The anonymous struct of the field `Dist` of `Version`. -/
structure Dist where
  SHASum : String
  Tarball : String
  deriving DecidableEq, Repr

/-- A package version, the struct `Version`. -/
structure Version where
  Name : String
  Version : String
  Homepage : String
  Repository : Repository
  Dependencies : GoMap GoAny
  DevDependencies : GoMap GoAny
  Scripts : GoMap GoAny
  Author : Author
  License : String
  Readme : String
  ReadmeFilename : String
  ID : String
  Description : String
  Dist : Dist
  NPMVersion : String
  NPMUser : GoAny
  Maintainers : Option (List (GoMap GoAny))

/-- A package, the struct `Package`; a value of `Versions` is a pointer, `none` when nil. -/
structure Package where
  ID : String
  Rev : String
  Name : String
  Description : String
  DistTags : GoMap String
  Versions : GoMap (Option Npm.Version)
  Time : PackageTime
  Author : Author
  Repository : Repository
  Readme : String

/-- The zero value of `RegistryMeta` (`var r RegistryMeta`). -/
def RegistryMeta.zero : RegistryMeta :=
  { DBName := "", DocCount := 0, DocDelCount := 0, UpdateSeq := 0, PurgeSeq := 0,
    CompactRunning := false, DiskSize := 0, DataSize := 0, InstanceStartTime := "",
    DiskFormatVersion := 0, CommittedUpdateSeq := 0 }

/-- The zero value of the struct of `Time`. -/
def PackageTime.zero : PackageTime := { Created := "", Modified := "" }

/-- The zero value of the struct of `Author`. -/
def Author.zero : Author := { Name := "", Email := "", URL := "" }

/-- The zero value of the struct of `Repository`. -/
def Repository.zero : Repository := { Typ := "", URL := "" }

/-- The zero value of the struct of `Dist`. -/
def Dist.zero : Dist := { SHASum := "", Tarball := "" }

/-- The zero value of `Version`. -/
def Version.zero : Npm.Version :=
  { Name := "", Version := "", Homepage := "", Repository := Repository.zero,
    Dependencies := none, DevDependencies := none, Scripts := none, Author := Author.zero,
    License := "", Readme := "", ReadmeFilename := "", ID := "", Description := "",
    Dist := Dist.zero, NPMVersion := "", NPMUser := GoAny.nil, Maintainers := none }

/-- The zero value of `Package` (`var p Package`). -/
def Package.zero : Package :=
  { ID := "", Rev := "", Name := "", Description := "", DistTags := none, Versions := none,
    Time := PackageTime.zero, Author := Author.zero, Repository := Repository.zero,
    Readme := "" }

/-! ## The environment -/

/-- A `context.Context`; the interface value may be nil. -/
inductive Context where
  | nil
  | live (id : Nat)
  deriving DecidableEq, Repr

/-- A `*http.Request` as built by `http.NewRequestWithContext`: it carries the context, the
method and the URL it was built from. -/
structure Request where
  ctx : Context
  method : String
  url : String
  deriving DecidableEq, Repr

/-- A `*http.Response`.  `Body` is the content `io.ReadAll` obtains from the body stream and
`BodyErr` the error on which the stream ends, if any. -/
structure Response where
  StatusCode : Int
  Header : List (String × String)
  Body : String
  BodyErr : Option Error
  deriving DecidableEq, Repr

/-- A non-nil `*http.Client`, known by its address. -/
structure HttpClient where
  addr : Nat
  deriving DecidableEq, Repr

/-- The type of `strconv.ParseFloat` at 64 bits: the `float64` of a literal, `none` when
the literal is out of range. -/
abbrev ParseFloat := String → Option Float64

/-- What the source does not determine: which requests `http.NewRequestWithContext`
rejects (`requestError`), what `(*http.Client).Do` returns for a request (`doReq`, the Go
pair of a response and an error) and `strconv.ParseFloat` at 64 bits (`parseFloat`, `none`
when the literal is out of range). -/
structure Env where
  requestError : Context → String → String → Option Error
  doReq : HttpClient → Request → Option Response × Option Error
  parseFloat : ParseFloat

/-! ## Decoding (`encoding/json`) -/

/-- The `Value` of the `UnmarshalTypeError` reported for a JSON value that does not fit its
target. -/
def JSON.describe : JSON → String
  | .null => "null"
  | .bool _ => "bool"
  | .num _ => "number"
  | .str _ => "string"
  | .arr _ => "array"
  | .obj _ => "object"

/-- Case folding of one character of an object key.  ASCII letters fold to upper case and
the two non-ASCII characters whose Unicode fold orbit meets ASCII, U+017F and U+212A, fold
to `S` and `K`.  Compared with the folded name of a field, which is ASCII in `npm.go`, this
gives the outcome of `foldName` of `encoding/json`. -/
def foldChar (c : Char) : Char :=
  if 'a' ≤ c ∧ c ≤ 'z' then Char.ofNat (c.toNat - 32)
  else if c = Char.ofNat 0x17F then 'S'
  else if c = Char.ofNat 0x212A then 'K'
  else c

/-- Case folding of a key. -/
def foldName (s : String) : String := String.mk (s.data.map foldChar)

/-- The field an object key selects: the field whose JSON name is the key, and otherwise
the first field whose name equals the key up to case folding. -/
def lookupField {F : Type} (name : F → String) (fields : List F) (key : String) : Option F :=
  match fields.find? (fun f => name f == key) with
  | some f => some f
  | none => fields.find? (fun f => foldName (name f) == foldName key)

/-- The value of a run of decimal digits, `none` when another character occurs. -/
def parseDigits : List Char → Nat → Option Nat
  | [], acc => some acc
  | c :: cs, acc =>
    if isDigit c then parseDigits cs (acc * 10 + (c.toNat - '0'.toNat)) else none

/-- The function `strconv.ParseInt(s, 10, 64)`: an optional sign and decimal digits, within
the range of a 64-bit integer. -/
def parseInt (s : String) : Option Int :=
  let signed : Bool × List Char :=
    match s.data with
    | '-' :: ds => (true, ds)
    | '+' :: ds => (false, ds)
    | ds => (false, ds)
  match signed.2 with
  | [] => none
  | d :: ds =>
    match parseDigits (d :: ds) 0 with
    | none => none
    | some n =>
      if signed.1 then (if n ≤ 2 ^ 63 then some (-(n : Int)) else none)
      else (if n < 2 ^ 63 then some (n : Int) else none)

/-- Decode into a `string`: `null` leaves the target as it is. -/
def decodeString (j : JSON) (cur : String) : Except Error String :=
  match j with
  | .null => .ok cur
  | .str s => .ok s
  | other => .error (.unmarshalType other.describe)

/-- Decode into an `int` (64 bits): the literal must be accepted by `strconv.ParseInt`. -/
def decodeInt (j : JSON) (cur : Int) : Except Error Int :=
  match j with
  | .null => .ok cur
  | .num lit =>
    match parseInt lit with
    | some n => .ok n
    | none => .error (.unmarshalType ("number " ++ lit))
  | other => .error (.unmarshalType other.describe)

/-- Decode into a `bool`. -/
def decodeBool (j : JSON) (cur : Bool) : Except Error Bool :=
  match j with
  | .null => .ok cur
  | .bool b => .ok b
  | other => .error (.unmarshalType other.describe)

mutual
/-- Decode into an `any`: the value is replaced by `nil`, a `bool`, a `float64`, a
`string`, a `[]any` or a `map[string]any`. -/
def decodeAny (pf : ParseFloat) : JSON → Except Error GoAny
  | .null => .ok .nil
  | .bool b => .ok (.bool b)
  | .num lit =>
    match pf lit with
    | some f => .ok (.float64 f)
    | none => .error (.unmarshalType ("number " ++ lit))
  | .str s => .ok (.string s)
  | .arr xs =>
    match decodeAnyList pf xs with
    | .ok vs => .ok (.slice vs)
    | .error e => .error e
  | .obj ms =>
    match decodeAnyMembers pf ms [] with
    | .ok m => .ok (.map m)
    | .error e => .error e
/-- The elements of an array, decoded into a `[]any`. -/
def decodeAnyList (pf : ParseFloat) : List JSON → Except Error (List GoAny)
  | [] => .ok []
  | x :: xs =>
    match decodeAny pf x with
    | .error e => .error e
    | .ok v =>
      match decodeAnyList pf xs with
      | .error e => .error e
      | .ok vs => .ok (v :: vs)
/-- The members of an object, assigned one after the other to a `map[string]any`. -/
def decodeAnyMembers (pf : ParseFloat) :
    List (String × JSON) → List (String × GoAny) → Except Error (List (String × GoAny))
  | [], acc => .ok acc
  | (k, v) :: ms, acc =>
    match decodeAny pf v with
    | .error e => .error e
    | .ok a => decodeAnyMembers pf ms (mapSet acc k a)
end

/-- Decode into a `map[string]any` field: `null` sets the nil map, an object assigns its
members to the map (allocated when nil). -/
def decodeAnyMap (pf : ParseFloat) (j : JSON) (cur : GoMap GoAny) : Except Error (GoMap GoAny) :=
  match j with
  | .null => .ok none
  | .obj ms =>
    match decodeAnyMembers pf ms (cur.getD []) with
    | .ok m => .ok (some m)
    | .error e => .error e
  | other => .error (.unmarshalType other.describe)

/-- One member of an object decoded into a `map[string]string`: the element starts from
the zero string. -/
def decodeStringEntry (acc : List (String × String)) (m : String × JSON) :
    Except Error (List (String × String)) :=
  match decodeString m.2 "" with
  | .ok s => .ok (mapSet acc m.1 s)
  | .error e => .error e

/-- Decode into a `map[string]string` field. -/
def decodeStringMap (j : JSON) (cur : GoMap String) : Except Error (GoMap String) :=
  match j with
  | .null => .ok none
  | .obj ms =>
    match ms.foldlM decodeStringEntry (cur.getD []) with
    | .ok m => .ok (some m)
    | .error e => .error e
  | other => .error (.unmarshalType other.describe)

/-- The elements of an array decoded into a `[]map[string]any`: element `i` is decoded into
the element the slice already has at `i`, or into a nil map. -/
def decodeMaintainerList (pf : ParseFloat) :
    List JSON → List (GoMap GoAny) → Except Error (List (GoMap GoAny))
  | [], _ => .ok []
  | x :: xs, cur =>
    match decodeAnyMap pf x (cur.head?.getD none) with
    | .error e => .error e
    | .ok v =>
      match decodeMaintainerList pf xs cur.tail with
      | .error e => .error e
      | .ok vs => .ok (v :: vs)

/-- Decode into the `[]map[string]any` field `Maintainers`: `null` sets the nil slice, an
array sets a slice of the length of the array. -/
def decodeMaintainers (pf : ParseFloat) (j : JSON) (cur : Option (List (GoMap GoAny))) :
    Except Error (Option (List (GoMap GoAny))) :=
  match j with
  | .null => .ok none
  | .arr xs =>
    match decodeMaintainerList pf xs (cur.getD []) with
    | .ok vs => .ok (some vs)
    | .error e => .error e
  | other => .error (.unmarshalType other.describe)

/-- The fields of `RegistryMeta`, in the order of the declaration. -/
inductive MetaField where
  | DBName | DocCount | DocDelCount | UpdateSeq | PurgeSeq | CompactRunning
  | DiskSize | DataSize | InstanceStartTime | DiskFormatVersion | CommittedUpdateSeq
  deriving DecidableEq, Repr

/-- The JSON name of a field of `RegistryMeta`: its `json` tag. -/
def MetaField.key : MetaField → String
  | .DBName => "db_name"
  | .DocCount => "doc_count"
  | .DocDelCount => "doc_del_count"
  | .UpdateSeq => "update_seq"
  | .PurgeSeq => "purge_seq"
  | .CompactRunning => "compact_running"
  | .DiskSize => "disk_size"
  | .DataSize => "data_size"
  | .InstanceStartTime => "instance_start_time"
  | .DiskFormatVersion => "disk_format_version"
  | .CommittedUpdateSeq => "committed_update_seq"

/-- All fields of `RegistryMeta`. -/
def MetaField.all : List MetaField :=
  [.DBName, .DocCount, .DocDelCount, .UpdateSeq, .PurgeSeq, .CompactRunning,
   .DiskSize, .DataSize, .InstanceStartTime, .DiskFormatVersion, .CommittedUpdateSeq]

/-- Decode the value of one member into the field of `RegistryMeta` it selects. -/
def decodeMetaField (f : MetaField) (j : JSON) (r : RegistryMeta) :
    Except Error RegistryMeta :=
  match f with
  | .DBName => (decodeString j r.DBName).map (fun v => { r with DBName := v })
  | .DocCount => (decodeInt j r.DocCount).map (fun v => { r with DocCount := v })
  | .DocDelCount => (decodeInt j r.DocDelCount).map (fun v => { r with DocDelCount := v })
  | .UpdateSeq => (decodeInt j r.UpdateSeq).map (fun v => { r with UpdateSeq := v })
  | .PurgeSeq => (decodeInt j r.PurgeSeq).map (fun v => { r with PurgeSeq := v })
  | .CompactRunning =>
    (decodeBool j r.CompactRunning).map (fun v => { r with CompactRunning := v })
  | .DiskSize => (decodeInt j r.DiskSize).map (fun v => { r with DiskSize := v })
  | .DataSize => (decodeInt j r.DataSize).map (fun v => { r with DataSize := v })
  | .InstanceStartTime =>
    (decodeString j r.InstanceStartTime).map (fun v => { r with InstanceStartTime := v })
  | .DiskFormatVersion =>
    (decodeInt j r.DiskFormatVersion).map (fun v => { r with DiskFormatVersion := v })
  | .CommittedUpdateSeq =>
    (decodeInt j r.CommittedUpdateSeq).map (fun v => { r with CommittedUpdateSeq := v })

/-- One member of an object decoded into a `RegistryMeta`; a key that selects no field is
skipped with its value. -/
def decodeMetaMember (r : RegistryMeta) (m : String × JSON) : Except Error RegistryMeta :=
  match lookupField MetaField.key MetaField.all m.1 with
  | none => .ok r
  | some f => decodeMetaField f m.2 r

/-- Decode a JSON value into a `RegistryMeta`: `null` leaves a struct as it is, an object
is decoded member by member, any other value is a type error. -/
def decodeRegistryMeta (j : JSON) (r : RegistryMeta) : Except Error RegistryMeta :=
  match j with
  | .null => .ok r
  | .obj ms => ms.foldlM decodeMetaMember r
  | other => .error (.unmarshalType other.describe)

/-- The fields of the struct of `Time`. -/
inductive TimeField where
  | Created | Modified
  deriving DecidableEq, Repr

/-- The JSON name of a field of the struct of `Time`. -/
def TimeField.key : TimeField → String
  | .Created => "created"
  | .Modified => "modified"

/-- One member of an object decoded into the struct of `Time`. -/
def decodeTimeMember (t : PackageTime) (m : String × JSON) : Except Error PackageTime :=
  match lookupField TimeField.key [.Created, .Modified] m.1 with
  | none => .ok t
  | some .Created => (decodeString m.2 t.Created).map (fun v => { t with Created := v })
  | some .Modified => (decodeString m.2 t.Modified).map (fun v => { t with Modified := v })

/-- Decode a JSON value into the struct of `Time`. -/
def decodeTime (j : JSON) (t : PackageTime) : Except Error PackageTime :=
  match j with
  | .null => .ok t
  | .obj ms => ms.foldlM decodeTimeMember t
  | other => .error (.unmarshalType other.describe)

/-- The fields of the struct of `Author`. -/
inductive AuthorField where
  | Name | Email | URL
  deriving DecidableEq, Repr

/-- The JSON name of a field of the struct of `Author`. -/
def AuthorField.key : AuthorField → String
  | .Name => "name"
  | .Email => "email"
  | .URL => "url"

/-- One member of an object decoded into the struct of `Author`. -/
def decodeAuthorMember (a : Author) (m : String × JSON) : Except Error Author :=
  match lookupField AuthorField.key [.Name, .Email, .URL] m.1 with
  | none => .ok a
  | some .Name => (decodeString m.2 a.Name).map (fun v => { a with Name := v })
  | some .Email => (decodeString m.2 a.Email).map (fun v => { a with Email := v })
  | some .URL => (decodeString m.2 a.URL).map (fun v => { a with URL := v })

/-- Decode a JSON value into the struct of `Author`. -/
def decodeAuthor (j : JSON) (a : Author) : Except Error Author :=
  match j with
  | .null => .ok a
  | .obj ms => ms.foldlM decodeAuthorMember a
  | other => .error (.unmarshalType other.describe)

/-- The fields of the struct of `Repository`. -/
inductive RepositoryField where
  | Typ | URL
  deriving DecidableEq, Repr

/-- The JSON name of a field of the struct of `Repository`. -/
def RepositoryField.key : RepositoryField → String
  | .Typ => "type"
  | .URL => "url"

/-- One member of an object decoded into the struct of `Repository`. -/
def decodeRepositoryMember (x : Repository) (m : String × JSON) : Except Error Repository :=
  match lookupField RepositoryField.key [.Typ, .URL] m.1 with
  | none => .ok x
  | some .Typ => (decodeString m.2 x.Typ).map (fun v => { x with Typ := v })
  | some .URL => (decodeString m.2 x.URL).map (fun v => { x with URL := v })

/-- Decode a JSON value into the struct of `Repository`. -/
def decodeRepository (j : JSON) (x : Repository) : Except Error Repository :=
  match j with
  | .null => .ok x
  | .obj ms => ms.foldlM decodeRepositoryMember x
  | other => .error (.unmarshalType other.describe)

/-- The fields of the struct of `Dist`. -/
inductive DistField where
  | SHASum | Tarball
  deriving DecidableEq, Repr

/-- The JSON name of a field of the struct of `Dist`. -/
def DistField.key : DistField → String
  | .SHASum => "shasum"
  | .Tarball => "tarball"

/-- One member of an object decoded into the struct of `Dist`. -/
def decodeDistMember (x : Dist) (m : String × JSON) : Except Error Dist :=
  match lookupField DistField.key [.SHASum, .Tarball] m.1 with
  | none => .ok x
  | some .SHASum => (decodeString m.2 x.SHASum).map (fun v => { x with SHASum := v })
  | some .Tarball => (decodeString m.2 x.Tarball).map (fun v => { x with Tarball := v })

/-- Decode a JSON value into the struct of `Dist`. -/
def decodeDist (j : JSON) (x : Dist) : Except Error Dist :=
  match j with
  | .null => .ok x
  | .obj ms => ms.foldlM decodeDistMember x
  | other => .error (.unmarshalType other.describe)

/-- The fields of `Version`, in the order of the declaration. -/
inductive VersionField where
  | Name | Version | Homepage | Repository | Dependencies | DevDependencies | Scripts
  | Author | License | Readme | ReadmeFilename | ID | Description | Dist | NPMVersion
  | NPMUser | Maintainers
  deriving DecidableEq, Repr

/-- The JSON name of a field of `Version`: its `json` tag, and the Go name of the two
fields without a tag. -/
def VersionField.key : VersionField → String
  | .Name => "name"
  | .Version => "version"
  | .Homepage => "homepage"
  | .Repository => "Repository"
  | .Dependencies => "dependencies"
  | .DevDependencies => "devDependencies"
  | .Scripts => "scripts"
  | .Author => "Author"
  | .License => "license"
  | .Readme => "readme"
  | .ReadmeFilename => "readmeFilename"
  | .ID => "_id"
  | .Description => "description"
  | .Dist => "dist"
  | .NPMVersion => "_npmVersion"
  | .NPMUser => "_npmUser"
  | .Maintainers => "maintainers"

/-- All fields of `Version`. -/
def VersionField.all : List VersionField :=
  [.Name, .Version, .Homepage, .Repository, .Dependencies, .DevDependencies, .Scripts,
   .Author, .License, .Readme, .ReadmeFilename, .ID, .Description, .Dist, .NPMVersion,
   .NPMUser, .Maintainers]

/-- Decode the value of one member into the field of `Version` it selects. -/
def decodeVersionField (pf : ParseFloat) (f : VersionField) (j : JSON) (v : Npm.Version) :
    Except Error Npm.Version :=
  match f with
  | .Name => (decodeString j v.Name).map (fun x => { v with Name := x })
  | .Version => (decodeString j v.Version).map (fun x => { v with Version := x })
  | .Homepage => (decodeString j v.Homepage).map (fun x => { v with Homepage := x })
  | .Repository => (decodeRepository j v.Repository).map (fun x => { v with Repository := x })
  | .Dependencies =>
    (decodeAnyMap pf j v.Dependencies).map (fun x => { v with Dependencies := x })
  | .DevDependencies =>
    (decodeAnyMap pf j v.DevDependencies).map (fun x => { v with DevDependencies := x })
  | .Scripts => (decodeAnyMap pf j v.Scripts).map (fun x => { v with Scripts := x })
  | .Author => (decodeAuthor j v.Author).map (fun x => { v with Author := x })
  | .License => (decodeString j v.License).map (fun x => { v with License := x })
  | .Readme => (decodeString j v.Readme).map (fun x => { v with Readme := x })
  | .ReadmeFilename =>
    (decodeString j v.ReadmeFilename).map (fun x => { v with ReadmeFilename := x })
  | .ID => (decodeString j v.ID).map (fun x => { v with ID := x })
  | .Description => (decodeString j v.Description).map (fun x => { v with Description := x })
  | .Dist => (decodeDist j v.Dist).map (fun x => { v with Dist := x })
  | .NPMVersion => (decodeString j v.NPMVersion).map (fun x => { v with NPMVersion := x })
  | .NPMUser => (decodeAny pf j).map (fun x => { v with NPMUser := x })
  | .Maintainers =>
    (decodeMaintainers pf j v.Maintainers).map (fun x => { v with Maintainers := x })

/-- One member of an object decoded into a `Version`. -/
def decodeVersionMember (pf : ParseFloat) (v : Npm.Version) (m : String × JSON) :
    Except Error Npm.Version :=
  match lookupField VersionField.key VersionField.all m.1 with
  | none => .ok v
  | some f => decodeVersionField pf f m.2 v

/-- Decode a JSON value into a `Version`. -/
def decodeVersion (pf : ParseFloat) (j : JSON) (v : Npm.Version) : Except Error Npm.Version :=
  match j with
  | .null => .ok v
  | .obj ms => ms.foldlM (decodeVersionMember pf) v
  | other => .error (.unmarshalType other.describe)

/-- One member of an object decoded into a `map[string]*Version`: the element starts from
the nil pointer; `null` keeps it nil, any other value is decoded into a new `Version`. -/
def decodeVersionEntry (pf : ParseFloat) (acc : List (String × Option Npm.Version))
    (m : String × JSON) : Except Error (List (String × Option Npm.Version)) :=
  match m.2 with
  | .null => .ok (mapSet acc m.1 none)
  | other =>
    match decodeVersion pf other Version.zero with
    | .ok v => .ok (mapSet acc m.1 (some v))
    | .error e => .error e

/-- Decode into the `map[string]*Version` field `Versions`. -/
def decodeVersions (pf : ParseFloat) (j : JSON) (cur : GoMap (Option Npm.Version)) :
    Except Error (GoMap (Option Npm.Version)) :=
  match j with
  | .null => .ok none
  | .obj ms =>
    match ms.foldlM (decodeVersionEntry pf) (cur.getD []) with
    | .ok m => .ok (some m)
    | .error e => .error e
  | other => .error (.unmarshalType other.describe)

/-- The fields of `Package`, in the order of the declaration. -/
inductive PackageField where
  | ID | Rev | Name | Description | DistTags | Versions | Time | Author | Repository
  | Readme
  deriving DecidableEq, Repr

/-- The JSON name of a field of `Package`: its `json` tag, and the Go name of the two
fields without a tag. -/
def PackageField.key : PackageField → String
  | .ID => "_id"
  | .Rev => "_rev"
  | .Name => "name"
  | .Description => "description"
  | .DistTags => "dist-tags"
  | .Versions => "versions"
  | .Time => "time"
  | .Author => "Author"
  | .Repository => "Repository"
  | .Readme => "readme"

/-- All fields of `Package`. -/
def PackageField.all : List PackageField :=
  [.ID, .Rev, .Name, .Description, .DistTags, .Versions, .Time, .Author, .Repository,
   .Readme]

/-- Decode the value of one member into the field of `Package` it selects. -/
def decodePackageField (pf : ParseFloat) (f : PackageField) (j : JSON) (p : Package) :
    Except Error Package :=
  match f with
  | .ID => (decodeString j p.ID).map (fun x => { p with ID := x })
  | .Rev => (decodeString j p.Rev).map (fun x => { p with Rev := x })
  | .Name => (decodeString j p.Name).map (fun x => { p with Name := x })
  | .Description => (decodeString j p.Description).map (fun x => { p with Description := x })
  | .DistTags => (decodeStringMap j p.DistTags).map (fun x => { p with DistTags := x })
  | .Versions => (decodeVersions pf j p.Versions).map (fun x => { p with Versions := x })
  | .Time => (decodeTime j p.Time).map (fun x => { p with Time := x })
  | .Author => (decodeAuthor j p.Author).map (fun x => { p with Author := x })
  | .Repository => (decodeRepository j p.Repository).map (fun x => { p with Repository := x })
  | .Readme => (decodeString j p.Readme).map (fun x => { p with Readme := x })

/-- One member of an object decoded into a `Package`. -/
def decodePackageMember (pf : ParseFloat) (p : Package) (m : String × JSON) :
    Except Error Package :=
  match lookupField PackageField.key PackageField.all m.1 with
  | none => .ok p
  | some f => decodePackageField pf f m.2 p

/-- Decode a JSON value into a `Package`. -/
def decodePackage (pf : ParseFloat) (j : JSON) (p : Package) : Except Error Package :=
  match j with
  | .null => .ok p
  | .obj ms => ms.foldlM (decodePackageMember pf) p
  | other => .error (.unmarshalType other.describe)

/-- The call `json.Unmarshal(data, &r)` for a `RegistryMeta`: the syntax of the whole text
is checked first, then the value is decoded into `r`.  The decoder of `encoding/json`
records the first type error and goes on; as the callers drop the value when an error is
returned, stopping at the first type error gives the same results. -/
def UnmarshalRegistryMeta (data : String) (r : RegistryMeta) : Except Error RegistryMeta :=
  match parseJSON data with
  | none => .error .badJSON
  | some j => decodeRegistryMeta j r

/-- The call `json.Unmarshal(data, &p)` for a `Package`. -/
def UnmarshalPackage (pf : ParseFloat) (data : String) (p : Package) : Except Error Package :=
  match parseJSON data with
  | none => .error .badJSON
  | some j => decodePackage pf j p

/-! ## The client (`npm.go`) -/

/-- The registry address, the constant `BaseURL`. -/
def BaseURL : String := "https://registry.npmjs.org"

/-- The constant `http.MethodGet`. -/
def MethodGet : String := "GET"

/-- The variable `http.DefaultClient`. -/
def DefaultClient : HttpClient := { addr := 0 }

/-- The struct `Client`; the field is a `*http.Client`, `none` when nil. -/
structure Client where
  httpClient : Option HttpClient
  deriving DecidableEq, Repr

/-- The `Client` objects allocated so far; a `*Client` is an index into the heap. -/
abbrev Heap := List Client

/-- The type `ClientOption`, `func(*Client)`: given the address of a client, an option
changes the heap. -/
abbrev ClientOption := Nat → Heap → Heap

/-- `WithHttpClient` overrides the default http client: `c.httpClient = client`. -/
def WithHttpClient (client : Option HttpClient) : ClientOption :=
  fun c heap => heap.set c { httpClient := client }

/-- `NewClient` allocates `&Client{http.DefaultClient}`, applies the options to it in order
and returns its address. -/
def NewClient (opts : List ClientOption) (heap : Heap) : Nat × Heap :=
  let c := heap.length
  (c, opts.foldl (fun h opt => opt c h) (heap ++ [{ httpClient := some DefaultClient }]))

/-- A call of the source into the standard library. -/
inductive Event where
  | newRequest (ctx : Context) (method : String) (url : String)
  | doReq (client : HttpClient) (req : Request)
  | readAll (res : Response)
  | unmarshal (data : String)
  deriving DecidableEq, Repr

/-- How a call of an operation ends: it returns its three results (a nil pointer and a nil
error are `none`), or it panics on a nil pointer. -/
inductive Outcome (α : Type) where
  | ret (value : Option α) (res : Option Response) (err : Option Error)
  | panic

/-- The function `http.NewRequestWithContext(ctx, method, url, nil)`: an error when the
environment rejects the arguments, otherwise a request made of them. -/
def NewRequestWithContext (env : Env) (ctx : Context) (method url : String) :
    Except Error Request :=
  match env.requestError ctx method url with
  | some err => .error err
  | none => .ok { ctx := ctx, method := method, url := url }

/-- The function `io.ReadAll(res.Body)`: the content read and the error that ended the
reading, if any. -/
def ReadAll (res : Response) : String × Option Error := (res.Body, res.BodyErr)

/-- `GetMeta` makes an HTTP request to https://registry.npmjs.org/ and returns the JSON
response.  The second component lists the calls made, in order. -/
def GetMeta (env : Env) (c : Client) (ctx : Context) :
    Outcome RegistryMeta × List Event :=
  let path := BaseURL ++ "/"
  match NewRequestWithContext env ctx MethodGet path with
  | .error err => (.ret none none (some err), [.newRequest ctx MethodGet path])
  | .ok req =>
    match c.httpClient with
    | none => (.panic, [.newRequest ctx MethodGet path])
    | some h =>
      match env.doReq h req with
      | (res, some err) =>
        (.ret none res (some err), [.newRequest ctx MethodGet path, .doReq h req])
      | (none, none) => (.panic, [.newRequest ctx MethodGet path, .doReq h req])
      | (some res, none) =>
        match ReadAll res with
        | (_, some err) =>
          (.ret none (some res) (some err),
            [.newRequest ctx MethodGet path, .doReq h req, .readAll res])
        | (body, none) =>
          match UnmarshalRegistryMeta body RegistryMeta.zero with
          | .error err =>
            (.ret none (some res) (some err),
              [.newRequest ctx MethodGet path, .doReq h req, .readAll res, .unmarshal body])
          | .ok r =>
            (.ret (some r) (some res) none,
              [.newRequest ctx MethodGet path, .doReq h req, .readAll res, .unmarshal body])

/-- `GetPackage` makes an HTTP request to https://registry.npmjs.org/<<packageName>>. -/
def GetPackage (env : Env) (c : Client) (ctx : Context) (packageName : String) :
    Outcome Package × List Event :=
  let path := BaseURL ++ "/" ++ packageName
  match NewRequestWithContext env ctx MethodGet path with
  | .error err => (.ret none none (some err), [.newRequest ctx MethodGet path])
  | .ok req =>
    match c.httpClient with
    | none => (.panic, [.newRequest ctx MethodGet path])
    | some h =>
      match env.doReq h req with
      | (res, some err) =>
        (.ret none res (some err), [.newRequest ctx MethodGet path, .doReq h req])
      | (none, none) => (.panic, [.newRequest ctx MethodGet path, .doReq h req])
      | (some res, none) =>
        match ReadAll res with
        | (_, some err) =>
          (.ret none (some res) (some err),
            [.newRequest ctx MethodGet path, .doReq h req, .readAll res])
        | (body, none) =>
          match UnmarshalPackage env.parseFloat body Package.zero with
          | .error err =>
            (.ret none (some res) (some err),
              [.newRequest ctx MethodGet path, .doReq h req, .readAll res, .unmarshal body])
          | .ok p =>
            (.ret (some p) (some res) none,
              [.newRequest ctx MethodGet path, .doReq h req, .readAll res, .unmarshal body])

/-- `GetPackageVersion` makes an HTTP request to
https://registry.npmjs.org/<<packageName>>/<<version>>. -/
def GetPackageVersion (env : Env) (c : Client) (ctx : Context)
    (packageName version : String) : Outcome Package × List Event :=
  let path := BaseURL ++ "/" ++ packageName ++ "/" ++ version
  match NewRequestWithContext env ctx MethodGet path with
  | .error err => (.ret none none (some err), [.newRequest ctx MethodGet path])
  | .ok req =>
    match c.httpClient with
    | none => (.panic, [.newRequest ctx MethodGet path])
    | some h =>
      match env.doReq h req with
      | (res, some err) =>
        (.ret none res (some err), [.newRequest ctx MethodGet path, .doReq h req])
      | (none, none) => (.panic, [.newRequest ctx MethodGet path, .doReq h req])
      | (some res, none) =>
        match ReadAll res with
        | (_, some err) =>
          (.ret none (some res) (some err),
            [.newRequest ctx MethodGet path, .doReq h req, .readAll res])
        | (body, none) =>
          match UnmarshalPackage env.parseFloat body Package.zero with
          | .error err =>
            (.ret none (some res) (some err),
              [.newRequest ctx MethodGet path, .doReq h req, .readAll res, .unmarshal body])
          | .ok p =>
            (.ret (some p) (some res) none,
              [.newRequest ctx MethodGet path, .doReq h req, .readAll res, .unmarshal body])

/-! ## Observations on a call -/

/-- The requests a call handed to an HTTP client, with the client that got them. -/
def requests : List Event → List (HttpClient × Request)
  | [] => []
  | .doReq h req :: es => (h, req) :: requests es
  | _ :: es => requests es

/-- The decoded value a call returned, `none` for a nil pointer or a panic. -/
def Outcome.value {α : Type} : Outcome α → Option α
  | .ret v _ _ => v
  | .panic => none

/-- The raw response a call returned. -/
def Outcome.response {α : Type} : Outcome α → Option Response
  | .ret _ res _ => res
  | .panic => none

/-- The error a call returned. -/
def Outcome.err {α : Type} : Outcome α → Option Error
  | .ret _ _ e => e
  | .panic => none

/-- Whether a call returned (did not panic). -/
def Outcome.returned {α : Type} : Outcome α → Bool
  | .ret _ _ _ => true
  | .panic => false

/-! ## Concrete environments -/

/-- Whether a URL holds an ASCII control character. -/
def hasControlChar (url : String) : Bool :=
  url.data.any (fun c => c.toNat < 0x20 || c.toNat == 0x7f)

/-- A request validation that rejects a nil context and, like `url.Parse`, a URL with an
ASCII control character. -/
def rejectControl (ctx : Context) (_method url : String) : Option Error :=
  if ctx = Context.nil then some (.request "net/http: nil Context")
  else if hasControlChar url then
    some (.request "net/url: invalid control character in URL")
  else none

/-- The position of the leading binary digit of a number below `2 ^ fuel`. -/
def leadingBit : Nat → Nat → Nat
  | 0, _ => 0
  | fuel + 1, n => if n < 2 then 0 else leadingBit fuel (n / 2) + 1

/-- The `float64` of a natural number below `2 ^ 53`, as its IEEE 754 bit pattern. -/
def floatOfNat (n : Nat) : Float64 :=
  if n = 0 then { bits := 0 }
  else
    { bits := (leadingBit 64 n + 1023) * 2 ^ 52 + (n * 2 ^ (52 - leadingBit 64 n) - 2 ^ 52) }

/-- A `parseFloat` that knows the literals of the natural numbers below `2 ^ 53`. -/
def parseSmallFloat (lit : String) : Option Float64 :=
  match parseDigits lit.data 0 with
  | some n => if lit.data ≠ [] ∧ n < 2 ^ 53 then some (floatOfNat n) else none
  | none => none

/-- An environment in which every HTTP client answers every request with `res`. -/
def serveEnv (res : Response) : Env :=
  { requestError := rejectControl
    doReq := fun _ _ => (some res, none)
    parseFloat := parseSmallFloat }

/-- An environment in which every HTTP client fails on every request with `err`. -/
def failEnv (err : Error) : Env :=
  { requestError := rejectControl
    doReq := fun _ _ => (none, some err)
    parseFloat := parseSmallFloat }

/-- An environment in which every HTTP client answers with a response that names the client
that served it in its `Via` header. -/
def echoEnv : Env :=
  { requestError := rejectControl
    doReq := fun h _ =>
      (some { StatusCode := 200, Header := [("Via", toString h.addr)],
              Body := "null", BodyErr := none }, none)
    parseFloat := parseSmallFloat }

/-- A response with the given status and body, read without error. -/
def plainResponse (status : Int) (body : String) : Response :=
  { StatusCode := status, Header := [], Body := body, BodyErr := none }

/-- The environment `env` in which every HTTP client answers every request with `res`. -/
def withResponse (env : Env) (res : Response) : Env :=
  { env with doReq := fun _ _ => (some res, none) }

/-! ## Statements shared by the three operations -/

/-- The shape the three operations share, for a URL and a decoder.  It is used to prove
facts about the three at once; `GetMeta_eq_exchange` and its siblings relate it to the
operations. -/
def exchange {α : Type} (env : Env) (c : Client) (ctx : Context) (path : String)
    (unmarshal : String → Except Error α) : Outcome α × List Event :=
  match env.requestError ctx MethodGet path with
  | some err => (.ret none none (some err), [.newRequest ctx MethodGet path])
  | none =>
    match c.httpClient with
    | none => (.panic, [.newRequest ctx MethodGet path])
    | some h =>
      match env.doReq h { ctx := ctx, method := MethodGet, url := path } with
      | (res, some err) =>
        (.ret none res (some err),
          [.newRequest ctx MethodGet path,
           .doReq h { ctx := ctx, method := MethodGet, url := path }])
      | (none, none) =>
        (.panic,
          [.newRequest ctx MethodGet path,
           .doReq h { ctx := ctx, method := MethodGet, url := path }])
      | (some res, none) =>
        match res.BodyErr with
        | some err =>
          (.ret none (some res) (some err),
            [.newRequest ctx MethodGet path,
             .doReq h { ctx := ctx, method := MethodGet, url := path }, .readAll res])
        | none =>
          match unmarshal res.Body with
          | .error err =>
            (.ret none (some res) (some err),
              [.newRequest ctx MethodGet path,
               .doReq h { ctx := ctx, method := MethodGet, url := path }, .readAll res,
               .unmarshal res.Body])
          | .ok v =>
            (.ret (some v) (some res) none,
              [.newRequest ctx MethodGet path,
               .doReq h { ctx := ctx, method := MethodGet, url := path }, .readAll res,
               .unmarshal res.Body])

/-- What a call for the URL `path` guarantees about its outcome.  On return exactly one of
the decoded value and the error is non-nil, the raw response is nil when request
construction failed, and it is the response of the HTTP client whenever that client
returned one without an error.  A panic happens only on a nil `*http.Client`, or when the
HTTP client returns neither a response nor an error. -/
def ReturnContract {α : Type} (env : Env) (c : Client) (ctx : Context) (path : String)
    (o : Outcome α) : Prop :=
  match o with
  | .panic =>
    env.requestError ctx MethodGet path = none ∧
      (c.httpClient = none ∨
        ∃ h, c.httpClient = some h ∧
          env.doReq h { ctx := ctx, method := MethodGet, url := path } = (none, none))
  | .ret value res err =>
    ((value ≠ none ∧ err = none) ∨ (value = none ∧ err ≠ none)) ∧
    (env.requestError ctx MethodGet path ≠ none → res = none) ∧
    (∀ h r, env.requestError ctx MethodGet path = none → c.httpClient = some h →
      env.doReq h { ctx := ctx, method := MethodGet, url := path } = (some r, none) →
      res = some r)

/-! ## Reading an object as the decoder does -/

/-- The Go type of a scalar field. -/
inductive ScalarKind where
  | string | int | bool
  deriving DecidableEq, Repr

/-- The type of a field of `RegistryMeta`. -/
def MetaField.kind : MetaField → ScalarKind
  | .DBName => .string
  | .DocCount => .int
  | .DocDelCount => .int
  | .UpdateSeq => .int
  | .PurgeSeq => .int
  | .CompactRunning => .bool
  | .DiskSize => .int
  | .DataSize => .int
  | .InstanceStartTime => .string
  | .DiskFormatVersion => .int
  | .CommittedUpdateSeq => .int

/-- A JSON value has the type of a scalar field: a string for `string`, `true` or `false`
for `bool`, and for `int` a number whose literal is an integer of 64 bits. -/
def ScalarKind.fits : ScalarKind → JSON → Bool
  | .string, .str _ => true
  | .int, .num lit => (parseInt lit).isSome
  | .bool, .bool _ => true
  | _, _ => false

/-- The value of the last member of an object that selects the field `f`. -/
def lastSelecting {F : Type} [DecidableEq F] (name : F → String) (fields : List F) (f : F)
    (ms : List (String × JSON)) : Option JSON :=
  ms.foldl (fun acc m => if lookupField name fields m.1 = some f then some m.2 else acc) none

/-- The string a member gives to a `string` field, the zero value without a member. -/
def stringOf : Option JSON → String
  | some (.str s) => s
  | _ => ""

/-- The integer a member gives to an `int` field, the zero value without a member. -/
def intOf : Option JSON → Int
  | some (.num lit) => (parseInt lit).getD 0
  | _ => 0

/-- The boolean a member gives to a `bool` field, the zero value without a member. -/
def boolOf : Option JSON → Bool
  | some (.bool b) => b
  | _ => false

/-- The `RegistryMeta` an object describes: every field has the value of the last member
that selects it, and the zero value when no member selects it. -/
def metaOfMembers (ms : List (String × JSON)) : RegistryMeta :=
  { DBName := stringOf (lastSelecting MetaField.key MetaField.all .DBName ms)
    DocCount := intOf (lastSelecting MetaField.key MetaField.all .DocCount ms)
    DocDelCount := intOf (lastSelecting MetaField.key MetaField.all .DocDelCount ms)
    UpdateSeq := intOf (lastSelecting MetaField.key MetaField.all .UpdateSeq ms)
    PurgeSeq := intOf (lastSelecting MetaField.key MetaField.all .PurgeSeq ms)
    CompactRunning := boolOf (lastSelecting MetaField.key MetaField.all .CompactRunning ms)
    DiskSize := intOf (lastSelecting MetaField.key MetaField.all .DiskSize ms)
    DataSize := intOf (lastSelecting MetaField.key MetaField.all .DataSize ms)
    InstanceStartTime :=
      stringOf (lastSelecting MetaField.key MetaField.all .InstanceStartTime ms)
    DiskFormatVersion :=
      intOf (lastSelecting MetaField.key MetaField.all .DiskFormatVersion ms)
    CommittedUpdateSeq :=
      intOf (lastSelecting MetaField.key MetaField.all .CommittedUpdateSeq ms) }

/-- The value the key `k` has after the members of an object were assigned in order to a
`map[string]string` in which `k` had the value `start`: the string of the last member with
key `k`. -/
def lastString (ts : List (String × JSON)) (k : String) (start : Option String) :
    Option String :=
  ts.foldl (fun acc t => if t.1 = k then some (stringOf (some t.2)) else acc) start

/-- A member of the object selects the field `f` of `Package`. -/
def selectsPackageField (f : PackageField) (ms : List (String × JSON)) : Bool :=
  ms.any (fun m => lookupField PackageField.key PackageField.all m.1 == some f)

/-! ## Encoding (`json.Marshal`) -/

/-- The type of the formatting of a `float64` by `json.Marshal`
(`strconv.FormatFloat` with the shortest representation). -/
abbrev FormatFloat := Float64 → String

/-- The decimal digit of a number below ten. -/
def digitChar (n : Nat) : Char := Char.ofNat (n % 10 + '0'.toNat)

/-- The decimal digits of `n` in front of `acc`; `fuel` bounds the number of digits. -/
def natDigits : Nat → Nat → List Char → List Char
  | 0, _, acc => acc
  | fuel + 1, n, acc =>
    if n < 10 then digitChar n :: acc
    else natDigits fuel (n / 10) (digitChar n :: acc)

/-- The function `strconv.FormatInt(n, 10)`. -/
def formatInt (n : Int) : String :=
  match n with
  | .ofNat k => String.mk (natDigits (k + 1) k [])
  | .negSucc k => String.mk ('-' :: natDigits (k + 2) (k + 1) [])

mutual
/-- The JSON value `json.Marshal` writes for a dynamic value: a map is written with its keys
in increasing order, which is the order of its entries. -/
def encodeAny (fmt : FormatFloat) : GoAny → JSON
  | .nil => .null
  | .bool b => .bool b
  | .float64 f => .num (fmt f)
  | .string s => .str s
  | .slice xs => .arr (encodeAnyList fmt xs)
  | .map m => .obj (encodeAnyEntries fmt m)
  | .nilSlice => .null
  | .nilMap => .null
  | .int n => .num (formatInt n)
/-- The elements of a `[]any`, encoded. -/
def encodeAnyList (fmt : FormatFloat) : List GoAny → List JSON
  | [] => []
  | x :: xs => encodeAny fmt x :: encodeAnyList fmt xs
/-- The entries of a `map[string]any`, encoded. -/
def encodeAnyEntries (fmt : FormatFloat) : List (String × GoAny) → List (String × JSON)
  | [] => []
  | (k, v) :: m => (k, encodeAny fmt v) :: encodeAnyEntries fmt m
end

/-- The JSON value written for a `map[string]any`: `null` for the nil map. -/
def encodeAnyMap (fmt : FormatFloat) : GoMap GoAny → JSON
  | none => .null
  | some m => .obj (encodeAnyEntries fmt m)

/-- The JSON value written for a `map[string]string`. -/
def encodeStringMap : GoMap String → JSON
  | none => .null
  | some m => .obj (m.map (fun e => (e.1, .str e.2)))

/-- The JSON value written for a `[]map[string]any`: `null` for the nil slice. -/
def encodeMaintainers (fmt : FormatFloat) : Option (List (GoMap GoAny)) → JSON
  | none => .null
  | some l => .arr (l.map (encodeAnyMap fmt))

/-- The JSON value written for a `RegistryMeta`: one member for each field, in the order of
the declaration, named by the tag. -/
def encodeRegistryMeta (r : RegistryMeta) : JSON :=
  .obj [("db_name", .str r.DBName),
        ("doc_count", .num (formatInt r.DocCount)),
        ("doc_del_count", .num (formatInt r.DocDelCount)),
        ("update_seq", .num (formatInt r.UpdateSeq)),
        ("purge_seq", .num (formatInt r.PurgeSeq)),
        ("compact_running", .bool r.CompactRunning),
        ("disk_size", .num (formatInt r.DiskSize)),
        ("data_size", .num (formatInt r.DataSize)),
        ("instance_start_time", .str r.InstanceStartTime),
        ("disk_format_version", .num (formatInt r.DiskFormatVersion)),
        ("committed_update_seq", .num (formatInt r.CommittedUpdateSeq))]

/-- The JSON value written for the struct of `Time`. -/
def encodeTime (t : PackageTime) : JSON :=
  .obj [("created", .str t.Created), ("modified", .str t.Modified)]

/-- The JSON value written for the struct of `Author`. -/
def encodeAuthor (a : Author) : JSON :=
  .obj [("name", .str a.Name), ("email", .str a.Email), ("url", .str a.URL)]

/-- The JSON value written for the struct of `Repository`. -/
def encodeRepository (x : Repository) : JSON :=
  .obj [("type", .str x.Typ), ("url", .str x.URL)]

/-- The JSON value written for the struct of `Dist`. -/
def encodeDist (x : Dist) : JSON :=
  .obj [("shasum", .str x.SHASum), ("tarball", .str x.Tarball)]

/-- The JSON value written for a `Version`. -/
def encodeVersion (fmt : FormatFloat) (v : Npm.Version) : JSON :=
  .obj [("name", .str v.Name),
        ("version", .str v.Version),
        ("homepage", .str v.Homepage),
        ("Repository", encodeRepository v.Repository),
        ("dependencies", encodeAnyMap fmt v.Dependencies),
        ("devDependencies", encodeAnyMap fmt v.DevDependencies),
        ("scripts", encodeAnyMap fmt v.Scripts),
        ("Author", encodeAuthor v.Author),
        ("license", .str v.License),
        ("readme", .str v.Readme),
        ("readmeFilename", .str v.ReadmeFilename),
        ("_id", .str v.ID),
        ("description", .str v.Description),
        ("dist", encodeDist v.Dist),
        ("_npmVersion", .str v.NPMVersion),
        ("_npmUser", encodeAny fmt v.NPMUser),
        ("maintainers", encodeMaintainers fmt v.Maintainers)]

/-- The JSON value written for a `*Version`: `null` for the nil pointer. -/
def encodeVersionPtr (fmt : FormatFloat) : Option Npm.Version → JSON
  | none => .null
  | some v => encodeVersion fmt v

/-- The JSON value written for a `map[string]*Version`. -/
def encodeVersions (fmt : FormatFloat) : GoMap (Option Npm.Version) → JSON
  | none => .null
  | some m => .obj (m.map (fun e => (e.1, encodeVersionPtr fmt e.2)))

/-- The JSON value written for a `Package`. -/
def encodePackage (fmt : FormatFloat) (p : Package) : JSON :=
  .obj [("_id", .str p.ID),
        ("_rev", .str p.Rev),
        ("name", .str p.Name),
        ("description", .str p.Description),
        ("dist-tags", encodeStringMap p.DistTags),
        ("versions", encodeVersions fmt p.Versions),
        ("time", encodeTime p.Time),
        ("Author", encodeAuthor p.Author),
        ("Repository", encodeRepository p.Repository),
        ("readme", .str p.Readme)]

/-- An `int` of 64 bits. -/
def inInt64 (n : Int) : Prop := -(2 ^ 63 : Int) ≤ n ∧ n < (2 ^ 63 : Int)

/-- The keys of the entries of a map are in strictly increasing order. -/
def sortedKeys {V : Type} (m : List (String × V)) : Prop :=
  (m.map (fun e => e.1)).Pairwise (fun a b => a < b)

mutual
/-- A dynamic value that `json.Unmarshal` gives back as it was: it is made of `nil`, `bool`,
`string`, `[]any`, `map[string]any` and of `float64` values that the formatting and the
parsing of floats give back (the finite ones, for `strconv`). -/
def GoAny.Canonical (pf : ParseFloat) (fmt : FormatFloat) : GoAny → Prop
  | .nil => True
  | .bool _ => True
  | .float64 f => pf (fmt f) = some f
  | .string _ => True
  | .slice xs => GoAny.CanonicalList pf fmt xs
  | .map m => sortedKeys m ∧ GoAny.CanonicalEntries pf fmt m
  | .nilSlice => False
  | .nilMap => False
  | .int _ => False
/-- All elements of a `[]any` are canonical. -/
def GoAny.CanonicalList (pf : ParseFloat) (fmt : FormatFloat) : List GoAny → Prop
  | [] => True
  | x :: xs => GoAny.Canonical pf fmt x ∧ GoAny.CanonicalList pf fmt xs
/-- All values of a `map[string]any` are canonical. -/
def GoAny.CanonicalEntries (pf : ParseFloat) (fmt : FormatFloat) :
    List (String × GoAny) → Prop
  | [] => True
  | (_, v) :: m => GoAny.Canonical pf fmt v ∧ GoAny.CanonicalEntries pf fmt m
end

/-- A `map[string]any` field whose entries are sorted and canonical. -/
def validAnyMap (pf : ParseFloat) (fmt : FormatFloat) : GoMap GoAny → Prop
  | none => True
  | some m => sortedKeys m ∧ GoAny.CanonicalEntries pf fmt m

/-- A `RegistryMeta` whose `int` fields are integers of 64 bits. -/
def RegistryMeta.Valid (r : RegistryMeta) : Prop :=
  inInt64 r.DocCount ∧ inInt64 r.DocDelCount ∧ inInt64 r.UpdateSeq ∧ inInt64 r.PurgeSeq ∧
  inInt64 r.DiskSize ∧ inInt64 r.DataSize ∧ inInt64 r.DiskFormatVersion ∧
  inInt64 r.CommittedUpdateSeq

/-- A `Version` whose loosely typed fields hold canonical values. -/
def Version.Valid (pf : ParseFloat) (fmt : FormatFloat) (v : Npm.Version) : Prop :=
  validAnyMap pf fmt v.Dependencies ∧ validAnyMap pf fmt v.DevDependencies ∧
  validAnyMap pf fmt v.Scripts ∧ GoAny.Canonical pf fmt v.NPMUser ∧
  (∀ l, v.Maintainers = some l → ∀ m ∈ l, validAnyMap pf fmt m)

/-- A `Package` whose maps are represented with sorted keys and whose versions are valid. -/
def Package.Valid (pf : ParseFloat) (fmt : FormatFloat) (p : Package) : Prop :=
  (∀ m, p.DistTags = some m → sortedKeys m) ∧
  (∀ m, p.Versions = some m →
    sortedKeys m ∧ ∀ e ∈ m, ∀ v, e.2 = some v → Version.Valid pf fmt v)

/-- A formatting of floats that writes the `float64` of a natural number below `2 ^ 53` as
that number in decimal, as `json.Marshal` does. -/
def formatSmallFloat : FormatFloat := fun f =>
  if f.bits = 0 then "0"
  else
    formatInt (Int.ofNat
      ((f.bits % 2 ^ 52 + 2 ^ 52) / 2 ^ (52 - (f.bits / 2 ^ 52 - 1023))))

/-! ## Sample values and their encodings -/

/-- A package whose version `1.0.0` holds the `int` 1 in the loosely typed `NPMUser`. -/
def intUserPackage : Package :=
  { Package.zero with
    Versions := some [("1.0.0", some { Version.zero with NPMUser := .int 1 })] }

/-- What decoding gives for `intUserPackage`: the `float64` 1 in `NPMUser`. -/
def floatUserPackage : Package :=
  { Package.zero with
    Versions := some [("1.0.0",
      some { Version.zero with NPMUser := .float64 { bits := 0x3FF0000000000000 } })] }

/-- The text `json.Marshal` writes for `intUserPackage`. -/
def intUserBody : String :=
  "\x7b\"_id\":\"\",\"_rev\":\"\",\"name\":\"\",\"description\":\"\",\"dist-tag" ++
  "s\":null,\"versions\":\x7b\"1.0.0\":\x7b\"name\":\"\",\"version\":\"\",\"hom" ++
  "epage\":\"\",\"Repository\":\x7b\"type\":\"\",\"url\":\"\"\x7d,\"dependencie" ++
  "s\":null,\"devDependencies\":null,\"scripts\":null,\"Author\":\x7b\"name\":" ++
  "\"\",\"email\":\"\",\"url\":\"\"\x7d,\"license\":\"\",\"readme\":\"\",\"read" ++
  "meFilename\":\"\",\"_id\":\"\",\"description\":\"\",\"dist\":\x7b\"shasum\":" ++
  "\"\",\"tarball\":\"\"\x7d,\"_npmVersion\":\"\",\"_npmUser\":1,\"maintainers" ++
  "\":null\x7d\x7d,\"time\":\x7b\"created\":\"\",\"modified\":\"\"\x7d,\"Author" ++
  "\":\x7b\"name\":\"\",\"email\":\"\",\"url\":\"\"\x7d,\"Repository\":\x7b\"ty" ++
  "pe\":\"\",\"url\":\"\"\x7d,\"readme\":\"\"\x7d"

/-- A package with a tag and two versions, whose loosely typed fields hold values of the
forms the decoder produces. -/
def samplePackage : Package :=
  { Package.zero with
    Name := "left-pad"
    DistTags := some [("latest", "1.3.0")]
    Versions := some
      [("1.3.0", some
        { Version.zero with
          Name := "left-pad"
          Dependencies := some
            [("a", .string "^1.0.0"),
             ("b", .slice [.bool true, .float64 (floatOfNat 3), .nil])]
          NPMUser := .map [("name", .string "stevemao")]
          Maintainers := some [some [("email", .string "x@y.z")], none] }),
       ("2.0.0", none)] }

/-- The text `json.Marshal` writes for `samplePackage`. -/
def samplePackageBody : String :=
  "\x7b\"_id\":\"\",\"_rev\":\"\",\"name\":\"left-pad\",\"description\":\"\",\"" ++
  "dist-tags\":\x7b\"latest\":\"1.3.0\"\x7d,\"versions\":\x7b\"1.3.0\":\x7b\"na" ++
  "me\":\"left-pad\",\"version\":\"\",\"homepage\":\"\",\"Repository\":\x7b\"ty" ++
  "pe\":\"\",\"url\":\"\"\x7d,\"dependencies\":\x7b\"a\":\"^1.0.0\",\"b\":[true" ++
  ",3,null]\x7d,\"devDependencies\":null,\"scripts\":null,\"Author\":\x7b\"name" ++
  "\":\"\",\"email\":\"\",\"url\":\"\"\x7d,\"license\":\"\",\"readme\":\"\",\"r" ++
  "eadmeFilename\":\"\",\"_id\":\"\",\"description\":\"\",\"dist\":\x7b\"shasum" ++
  "\":\"\",\"tarball\":\"\"\x7d,\"_npmVersion\":\"\",\"_npmUser\":\x7b\"name\":" ++
  "\"stevemao\"\x7d,\"maintainers\":[\x7b\"email\":\"x@y.z\"\x7d,null]\x7d,\"2." ++
  "0.0\":null\x7d,\"time\":\x7b\"created\":\"\",\"modified\":\"\"\x7d,\"Author" ++
  "\":\x7b\"name\":\"\",\"email\":\"\",\"url\":\"\"\x7d,\"Repository\":\x7b\"ty" ++
  "pe\":\"\",\"url\":\"\"\x7d,\"readme\":\"\"\x7d"

/-- A sample of registry metadata. -/
def sampleMeta : RegistryMeta :=
  { RegistryMeta.zero with
    DBName := "registry", DocCount := 5, UpdateSeq := -7, CompactRunning := true }

/-- The text `json.Marshal` writes for `sampleMeta`. -/
def sampleMetaBody : String :=
  "\x7b\"db_name\":\"registry\",\"doc_count\":5,\"doc_del_count\":0,\"update_se" ++
  "q\":-7,\"purge_seq\":0,\"compact_running\":true,\"disk_size\":0,\"data_size" ++
  "\":0,\"instance_start_time\":\"\",\"disk_format_version\":0,\"committed_upda" ++
  "te_seq\":0\x7d"

/-! ## Deeply nested values -/

/-- The JSON value of `n + 1` nested arrays, the innermost empty. -/
def nestedArrays : Nat → JSON
  | 0 => .arr []
  | n + 1 => .arr [nestedArrays n]

/-- The text of `n` nested arrays: `n` opening brackets and `n` closing brackets. -/
def nestedText (n : Nat) : List Char := List.replicate n '[' ++ List.replicate n ']'

/-- The text of 10000 nested arrays, the deepest value the scanner accepts. -/
def deepValueBody : String := String.mk (nestedText 10000)

/-- The text of the object with the single member `x` whose value is `deepValueBody`. -/
def deepMemberBody : String :=
  String.mk ('{' :: '"' :: 'x' :: '"' :: ':' :: (nestedText 10000 ++ ['}']))

/-! ## The text `json.Marshal` writes -/

/-- The lower-case hexadecimal digit of `n % 16`. -/
def hexDigit (n : Nat) : Char :=
  if n % 16 < 10 then Char.ofNat (n % 16 + '0'.toNat)
  else Char.ofNat (n % 16 - 10 + 'a'.toNat)

/-- The escape `\u00xy` of a character below 256. -/
def unicodeEscape (c : Char) : List Char :=
  ['\\', 'u', '0', '0', hexDigit (c.toNat / 16), hexDigit c.toNat]

/-- One character of a string as `json.Marshal` writes it (with HTML escaping, the
default): the quote, the backslash and the control characters are escaped, `<`, `>`, `&`,
U+2028 and U+2029 are written as `\u` escapes, every other character is written as it
is. -/
def escapeChar (c : Char) : List Char :=
  if c = '"' then ['\\', '"']
  else if c = '\\' then ['\\', '\\']
  else if c = Char.ofNat 8 then ['\\', 'b']
  else if c = Char.ofNat 12 then ['\\', 'f']
  else if c = '\n' then ['\\', 'n']
  else if c = '\r' then ['\\', 'r']
  else if c = '\t' then ['\\', 't']
  else if c.toNat < 0x20 ∨ c = '<' ∨ c = '>' ∨ c = '&' then unicodeEscape c
  else if c = Char.ofNat 0x2028 then ['\\', 'u', '2', '0', '2', '8']
  else if c = Char.ofNat 0x2029 then ['\\', 'u', '2', '0', '2', '9']
  else [c]

/-- The characters of a string, escaped. -/
def escapeString : List Char → List Char
  | [] => []
  | c :: cs => escapeChar c ++ escapeString cs

/-- A string literal: the escaped characters between quotes. -/
def renderString (s : String) : List Char := '"' :: (escapeString s.data ++ ['"'])

mutual
/-- The compact text of a JSON value, as `json.Marshal` writes it: no white space, the
members of an object and the elements of an array separated by commas. -/
def render : JSON → List Char
  | .null => ['n', 'u', 'l', 'l']
  | .bool true => ['t', 'r', 'u', 'e']
  | .bool false => ['f', 'a', 'l', 's', 'e']
  | .num lit => lit.data
  | .str s => renderString s
  | .arr [] => ['[', ']']
  | .arr (x :: xs) => '[' :: (render x ++ renderElems xs)
  | .obj [] => ['{', '}']
  | .obj ((k, v) :: ms) =>
    '{' :: (renderString k ++ ':' :: (render v ++ renderMembers ms))
/-- The elements that follow the first one, and the closing bracket. -/
def renderElems : List JSON → List Char
  | [] => [']']
  | x :: xs => ',' :: (render x ++ renderElems xs)
/-- The members that follow the first one, and the closing brace. -/
def renderMembers : List (String × JSON) → List Char
  | [] => ['}']
  | (k, v) :: ms => ',' :: (renderString k ++ ':' :: (render v ++ renderMembers ms))
end

mutual
/-- The number of arrays and objects nested in a JSON value. -/
def JSON.depth : JSON → Nat
  | .null => 0
  | .bool _ => 0
  | .num _ => 0
  | .str _ => 0
  | .arr xs => JSON.depthList xs + 1
  | .obj ms => JSON.depthMembers ms + 1
/-- The largest depth of the elements of an array. -/
def JSON.depthList : List JSON → Nat
  | [] => 0
  | x :: xs => max (JSON.depth x) (JSON.depthList xs)
/-- The largest depth of the values of the members of an object. -/
def JSON.depthMembers : List (String × JSON) → Nat
  | [] => 0
  | (_, v) :: ms => max (JSON.depth v) (JSON.depthMembers ms)
end

/-- A number literal of the JSON grammar: the scanner reads the whole of it. -/
def isNumber (lit : String) : Prop := scanNumber lit.data = some (lit.data, [])

mutual
/-- Every number of a JSON value is a number literal of the JSON grammar. -/
def JSON.NumbersValid : JSON → Prop
  | .null => True
  | .bool _ => True
  | .num lit => isNumber lit
  | .str _ => True
  | .arr xs => JSON.NumbersValidList xs
  | .obj ms => JSON.NumbersValidMembers ms
/-- Every number of the elements of an array is a number literal. -/
def JSON.NumbersValidList : List JSON → Prop
  | [] => True
  | x :: xs => JSON.NumbersValid x ∧ JSON.NumbersValidList xs
/-- Every number of the members of an object is a number literal. -/
def JSON.NumbersValidMembers : List (String × JSON) → Prop
  | [] => True
  | (_, v) :: ms => JSON.NumbersValid v ∧ JSON.NumbersValidMembers ms
end

/-- The call `json.Marshal(r)` for a `RegistryMeta`: the text of its encoding. -/
def MarshalRegistryMeta (r : RegistryMeta) : String :=
  String.mk (render (encodeRegistryMeta r))

/-- The call `json.Marshal(p)` for a `Package`, with the formatting of floats `fmt`. -/
def MarshalPackage (fmt : FormatFloat) (p : Package) : String :=
  String.mk (render (encodePackage fmt p))

/-- The input after a value of a compact text: the end of the text, or a comma, a closing
bracket or a closing brace. -/
def Terminated (rest : List Char) : Prop :=
  ∀ c t, rest = c :: t → c = ',' ∨ c = ']' ∨ c = '}'

/-! ## Theorems -/

theorem GetMeta_eq_exchange (env : Env) (c : Client) (ctx : Context) :
    GetMeta env c ctx =
      exchange env c ctx (BaseURL ++ "/")
        (fun b => UnmarshalRegistryMeta b RegistryMeta.zero) := by
  unfold GetMeta exchange NewRequestWithContext ReadAll
  dsimp only
  rcases env.requestError ctx MethodGet (BaseURL ++ "/") with _ | e
  · rcases c.httpClient with _ | h
    · rfl
    · simp only []
      rcases env.doReq h { ctx := ctx, method := MethodGet, url := BaseURL ++ "/" }
        with ⟨_ | r, _ | e⟩
      · rfl
      · rfl
      · simp only []
        rcases r.BodyErr with _ | e
        · simp only []
          generalize UnmarshalRegistryMeta r.Body RegistryMeta.zero = u
          cases u <;> rfl
        · rfl
      · rfl
  · rfl

theorem GetPackage_eq_exchange (env : Env) (c : Client) (ctx : Context)
    (packageName : String) :
    GetPackage env c ctx packageName =
      exchange env c ctx (BaseURL ++ "/" ++ packageName)
        (fun b => UnmarshalPackage env.parseFloat b Package.zero) := by
  unfold GetPackage exchange NewRequestWithContext ReadAll
  dsimp only
  rcases env.requestError ctx MethodGet (BaseURL ++ "/" ++ packageName) with _ | e
  · rcases c.httpClient with _ | h
    · rfl
    · simp only []
      rcases env.doReq h
        { ctx := ctx, method := MethodGet, url := BaseURL ++ "/" ++ packageName }
        with ⟨_ | r, _ | e⟩
      · rfl
      · rfl
      · simp only []
        rcases r.BodyErr with _ | e
        · simp only []
          generalize UnmarshalPackage env.parseFloat r.Body Package.zero = u
          cases u <;> rfl
        · rfl
      · rfl
  · rfl

theorem GetPackageVersion_eq_exchange (env : Env) (c : Client) (ctx : Context)
    (packageName version : String) :
    GetPackageVersion env c ctx packageName version =
      exchange env c ctx (BaseURL ++ "/" ++ packageName ++ "/" ++ version)
        (fun b => UnmarshalPackage env.parseFloat b Package.zero) := by
  unfold GetPackageVersion exchange NewRequestWithContext ReadAll
  dsimp only
  rcases env.requestError ctx MethodGet (BaseURL ++ "/" ++ packageName ++ "/" ++ version)
    with _ | e
  · rcases c.httpClient with _ | h
    · rfl
    · simp only []
      rcases env.doReq h
        { ctx := ctx, method := MethodGet,
          url := BaseURL ++ "/" ++ packageName ++ "/" ++ version }
        with ⟨_ | r, _ | e⟩
      · rfl
      · rfl
      · simp only []
        rcases r.BodyErr with _ | e
        · simp only []
          generalize UnmarshalPackage env.parseFloat r.Body Package.zero = u
          cases u <;> rfl
        · rfl
      · rfl
  · rfl

theorem exchange_contract {α : Type} (env : Env) (c : Client) (ctx : Context) (path : String)
    (unmarshal : String → Except Error α) :
    ReturnContract env c ctx path (exchange env c ctx path unmarshal).1 := by
  rcases hq : env.requestError ctx MethodGet path with _ | e
  · rcases hc : c.httpClient with _ | h
    · simp [exchange, ReturnContract, hq, hc]
    · rcases hd : env.doReq h { ctx := ctx, method := MethodGet, url := path }
        with ⟨_ | r, _ | e⟩
      · simp [exchange, ReturnContract, hq, hc, hd]
      · simp [exchange, ReturnContract, hq, hc, hd]
        intro h1 r1 hh
        subst hh
        rw [hd]
        simp
      · rcases hb : r.BodyErr with _ | e
        · rcases hu : unmarshal r.Body with e | v
          · simp [exchange, ReturnContract, hq, hc, hd, hb, hu]
            intro h1 r1 hh
            subst hh
            rw [hd]
            simp
          · simp [exchange, ReturnContract, hq, hc, hd, hb, hu]
            intro h1 r1 hh
            subst hh
            rw [hd]
            simp
        · simp [exchange, ReturnContract, hq, hc, hd, hb]
          intro h1 r1 hh
          subst hh
          rw [hd]
          simp
      · simp [exchange, ReturnContract, hq, hc, hd]
        intro h1 r1 hh
        subst hh
        rw [hd]
        simp
  · simp [exchange, ReturnContract, hq]

theorem exchange_requests {α : Type} (env : Env) (c : Client) (ctx : Context) (path : String)
    (unmarshal : String → Except Error α) (h : HttpClient) (hc : c.httpClient = some h) :
    requests (exchange env c ctx path unmarshal).2 =
      if env.requestError ctx MethodGet path = none then
        [(h, { ctx := ctx, method := MethodGet, url := path })]
      else [] := by
  rcases hq : env.requestError ctx MethodGet path with _ | e
  · rcases hd : env.doReq h { ctx := ctx, method := MethodGet, url := path }
      with ⟨_ | r, _ | e⟩
    · simp [exchange, requests, hq, hc, hd]
    · simp [exchange, requests, hq, hc, hd]
    · rcases hb : r.BodyErr with _ | e
      · rcases hu : unmarshal r.Body with e | v
        · simp [exchange, requests, hq, hc, hd, hb, hu]
        · simp [exchange, requests, hq, hc, hd, hb, hu]
      · simp [exchange, requests, hq, hc, hd, hb]
    · simp [exchange, requests, hq, hc, hd]
  · simp [exchange, requests, hq]

theorem exchange_requests_nil {α : Type} (env : Env) (c : Client) (ctx : Context)
    (path : String) (unmarshal : String → Except Error α) (hc : c.httpClient = none) :
    requests (exchange env c ctx path unmarshal).2 = [] := by
  rcases hq : env.requestError ctx MethodGet path with _ | e
  · simp [exchange, requests, hq, hc]
  · simp [exchange, requests, hq]

theorem exchange_transport_error {α : Type} (env : Env) (c : Client) (ctx : Context)
    (path : String) (unmarshal : String → Except Error α) (h : HttpClient)
    (res : Option Response) (err : Error)
    (hc : c.httpClient = some h) (hq : env.requestError ctx MethodGet path = none)
    (hd : env.doReq h { ctx := ctx, method := MethodGet, url := path } = (res, some err)) :
    exchange env c ctx path unmarshal =
      (.ret none res (some err),
        [.newRequest ctx MethodGet path,
         .doReq h { ctx := ctx, method := MethodGet, url := path }]) := by
  simp [exchange, hq, hc, hd]

theorem exchange_response {α : Type} (env : Env) (c : Client) (ctx : Context)
    (path : String) (unmarshal : String → Except Error α) (h : HttpClient)
    (res : Response)
    (hc : c.httpClient = some h) (hq : env.requestError ctx MethodGet path = none)
    (hd : env.doReq h { ctx := ctx, method := MethodGet, url := path } = (some res, none))
    (hb : res.BodyErr = none) :
    (exchange env c ctx path unmarshal).1 =
      match unmarshal res.Body with
      | .error err => .ret none (some res) (some err)
      | .ok v => .ret (some v) (some res) none := by
  rcases hu : unmarshal res.Body with e | v <;> simp [exchange, hq, hc, hd, hb, hu]

/-- C10: every call of `GetMeta`, `GetPackage` and `GetPackageVersion` satisfies the return
contract: on return exactly one of the decoded value and the error is non-nil, the raw
response is nil when request construction failed and is the response of the HTTP client
whenever that client returned one without error (so also when reading or decoding fails);
the call returns unless the `*http.Client` is nil or hands back neither response nor
error. -/
theorem operations_return_contract (env : Env) (c : Client) (ctx : Context)
    (packageName version : String) :
    ReturnContract env c ctx (BaseURL ++ "/") (GetMeta env c ctx).1 ∧
    ReturnContract env c ctx (BaseURL ++ "/" ++ packageName)
      (GetPackage env c ctx packageName).1 ∧
    ReturnContract env c ctx (BaseURL ++ "/" ++ packageName ++ "/" ++ version)
      (GetPackageVersion env c ctx packageName version).1 := by
  rw [GetMeta_eq_exchange, GetPackage_eq_exchange, GetPackageVersion_eq_exchange]
  exact ⟨exchange_contract _ _ _ _ _, exchange_contract _ _ _ _ _, exchange_contract _ _ _ _ _⟩

/-- C2: when the HTTP client returns an error for the request of an operation, the
operation returns a nil value, what the client returned as response and the error of the
client, and the only calls it made are the construction of the request and the exchange:
the body is neither read nor decoded. -/
theorem transport_error_is_returned (env : Env) (c : Client) (ctx : Context)
    (packageName version : String) (h : HttpClient) (hc : c.httpClient = some h) :
    (∀ res err, env.requestError ctx MethodGet (BaseURL ++ "/") = none →
      env.doReq h { ctx := ctx, method := MethodGet, url := BaseURL ++ "/" }
        = (res, some err) →
      GetMeta env c ctx =
        (.ret none res (some err),
          [.newRequest ctx MethodGet (BaseURL ++ "/"),
           .doReq h { ctx := ctx, method := MethodGet, url := BaseURL ++ "/" }])) ∧
    (∀ res err, env.requestError ctx MethodGet (BaseURL ++ "/" ++ packageName) = none →
      env.doReq h { ctx := ctx, method := MethodGet, url := BaseURL ++ "/" ++ packageName }
        = (res, some err) →
      GetPackage env c ctx packageName =
        (.ret none res (some err),
          [.newRequest ctx MethodGet (BaseURL ++ "/" ++ packageName),
           .doReq h
             { ctx := ctx, method := MethodGet, url := BaseURL ++ "/" ++ packageName }])) ∧
    (∀ res err,
      env.requestError ctx MethodGet (BaseURL ++ "/" ++ packageName ++ "/" ++ version)
        = none →
      env.doReq h
        { ctx := ctx, method := MethodGet,
          url := BaseURL ++ "/" ++ packageName ++ "/" ++ version } = (res, some err) →
      GetPackageVersion env c ctx packageName version =
        (.ret none res (some err),
          [.newRequest ctx MethodGet (BaseURL ++ "/" ++ packageName ++ "/" ++ version),
           .doReq h
             { ctx := ctx, method := MethodGet,
               url := BaseURL ++ "/" ++ packageName ++ "/" ++ version }])) := by
  refine ⟨?_, ?_, ?_⟩
  · intro res err hq hd
    rw [GetMeta_eq_exchange]
    exact exchange_transport_error env c ctx _ _ h res err hc hq hd
  · intro res err hq hd
    rw [GetPackage_eq_exchange]
    exact exchange_transport_error env c ctx _ _ h res err hc hq hd
  · intro res err hq hd
    rw [GetPackageVersion_eq_exchange]
    exact exchange_transport_error env c ctx _ _ h res err hc hq hd

theorem transport_error_is_returned_witness :
    GetMeta (failEnv (.transport "dial tcp: connection refused"))
        { httpClient := some DefaultClient } (.live 1) =
      (.ret none none (some (.transport "dial tcp: connection refused")),
        [.newRequest (.live 1) MethodGet (BaseURL ++ "/"),
         .doReq DefaultClient
           { ctx := .live 1, method := MethodGet, url := BaseURL ++ "/" }]) :=
  (transport_error_is_returned (failEnv (.transport "dial tcp: connection refused"))
    { httpClient := some DefaultClient } (.live 1) "jquery" "3.6.0" DefaultClient rfl).1
    none (.transport "dial tcp: connection refused") (by decide) rfl

/-- C1 as stated fails: for the package name made of a line feed, request construction
rejects the URL, `GetPackageVersion` returns the error and no request is issued. -/
theorem getPackageVersion_no_request_counterexample :
    requests (GetPackageVersion (serveEnv (plainResponse 200 "null"))
        { httpClient := some DefaultClient } (.live 1) "\n" "1.3.0").2 = [] ∧
    (GetPackageVersion (serveEnv (plainResponse 200 "null"))
        { httpClient := some DefaultClient } (.live 1) "\n" "1.3.0").1.err =
      some (.request "net/url: invalid control character in URL") := by
  constructor <;> decide

/-- C1, amended: `GetPackageVersion` builds its request from the method GET and the plain
concatenation `BaseURL ++ "/" ++ packageName ++ "/" ++ version`, with
`BaseURL = "https://registry.npmjs.org"`: that is the first call it makes.  When request
construction accepts that URL and the HTTP client of the client is not nil, exactly one
request is issued, to that HTTP client, and it carries the method and the URL unchanged.
When request construction rejects the URL, whatever the client, the call returns a nil
value, a nil response and the error of the construction, and it issues no request: the
construction is the only call it made.  For `left-pad` and `1.3.0` the URL is the base
address followed by `/left-pad/1.3.0`. -/
theorem getPackageVersion_request (env : Env) (c : Client) (ctx : Context)
    (packageName version : String) :
    BaseURL = "https://registry.npmjs.org" ∧
    (GetPackageVersion env c ctx packageName version).2.head? =
      some (.newRequest ctx "GET" (BaseURL ++ "/" ++ packageName ++ "/" ++ version)) ∧
    (∀ h, c.httpClient = some h →
      env.requestError ctx MethodGet (BaseURL ++ "/" ++ packageName ++ "/" ++ version)
        = none →
      requests (GetPackageVersion env c ctx packageName version).2 =
        [(h, { ctx := ctx, method := "GET",
               url := BaseURL ++ "/" ++ packageName ++ "/" ++ version })]) ∧
    (∀ err,
      env.requestError ctx MethodGet (BaseURL ++ "/" ++ packageName ++ "/" ++ version)
        = some err →
      GetPackageVersion env c ctx packageName version =
        (.ret none none (some err),
          [.newRequest ctx "GET" (BaseURL ++ "/" ++ packageName ++ "/" ++ version)]) ∧
      requests (GetPackageVersion env c ctx packageName version).2 = []) ∧
    (packageName = "left-pad" → version = "1.3.0" →
      BaseURL ++ "/" ++ packageName ++ "/" ++ version = BaseURL ++ "/left-pad/1.3.0") := by
  refine ⟨rfl, ?_, ?_, ?_, ?_⟩
  rotate_right
  · intro hp hv
    subst hp hv
    decide
  · rw [GetPackageVersion_eq_exchange]
    unfold exchange
    split
    · rfl
    · split
      · rfl
      · split <;> try rfl
        split
        · rfl
        · split <;> rfl
  · intro h hc hq
    rw [GetPackageVersion_eq_exchange, exchange_requests env c ctx _ _ h hc, if_pos hq]
    rfl
  · intro err hq
    have key : GetPackageVersion env c ctx packageName version =
        (.ret none none (some err),
          [.newRequest ctx "GET" (BaseURL ++ "/" ++ packageName ++ "/" ++ version)]) := by
      rw [GetPackageVersion_eq_exchange]
      simp only [exchange, hq]
      rfl
    exact ⟨key, by rw [key]; rfl⟩

theorem getPackageVersion_request_witness :
    (requests (GetPackageVersion (serveEnv (plainResponse 200 "null"))
        { httpClient := some DefaultClient } (.live 1) "left-pad" "1.3.0").2 =
      [(DefaultClient, { ctx := .live 1, method := "GET",
                         url := BaseURL ++ "/" ++ "left-pad" ++ "/" ++ "1.3.0" })] ∧
     BaseURL ++ "/" ++ "left-pad" ++ "/" ++ "1.3.0" = BaseURL ++ "/left-pad/1.3.0") ∧
    GetPackageVersion (serveEnv (plainResponse 200 "null")) { httpClient := none }
        (.live 1) "left\npad" "1.3.0" =
      (.ret none none (some (.request "net/url: invalid control character in URL")),
        [.newRequest (.live 1) "GET" (BaseURL ++ "/" ++ "left\npad" ++ "/" ++ "1.3.0")]) :=
  ⟨⟨(getPackageVersion_request (serveEnv (plainResponse 200 "null"))
      { httpClient := some DefaultClient } (.live 1) "left-pad" "1.3.0").2.2.1
      DefaultClient rfl (by decide), by decide⟩,
   ((getPackageVersion_request (serveEnv (plainResponse 200 "null"))
      { httpClient := none } (.live 1) "left\npad" "1.3.0").2.2.2.1
      (.request "net/url: invalid control character in URL") (by decide)).1⟩

/-- C3: when the HTTP client answers without error with a response of status 404 whose
body is read without error and is not syntactically valid JSON, each operation returns a
nil value, the syntax error of the decoder, and the very response of the HTTP client, whose
status code the caller reads as 404. -/
theorem not_found_with_invalid_body (env : Env) (c : Client) (ctx : Context)
    (packageName version : String) (h : HttpClient) (res : Response)
    (hc : c.httpClient = some h) (hstatus : res.StatusCode = 404)
    (hread : res.BodyErr = none) (hbody : parseJSON res.Body = none) :
    (env.requestError ctx MethodGet (BaseURL ++ "/") = none →
      env.doReq h { ctx := ctx, method := MethodGet, url := BaseURL ++ "/" }
        = (some res, none) →
      (GetMeta env c ctx).1 = .ret none (some res) (some .badJSON) ∧
      (GetMeta env c ctx).1.response.map (fun r => r.StatusCode) = some 404) ∧
    (env.requestError ctx MethodGet (BaseURL ++ "/" ++ packageName) = none →
      env.doReq h { ctx := ctx, method := MethodGet, url := BaseURL ++ "/" ++ packageName }
        = (some res, none) →
      (GetPackage env c ctx packageName).1 = .ret none (some res) (some .badJSON) ∧
      (GetPackage env c ctx packageName).1.response.map (fun r => r.StatusCode)
        = some 404) ∧
    (env.requestError ctx MethodGet (BaseURL ++ "/" ++ packageName ++ "/" ++ version)
        = none →
      env.doReq h
        { ctx := ctx, method := MethodGet,
          url := BaseURL ++ "/" ++ packageName ++ "/" ++ version } = (some res, none) →
      (GetPackageVersion env c ctx packageName version).1
        = .ret none (some res) (some .badJSON) ∧
      (GetPackageVersion env c ctx packageName version).1.response.map
        (fun r => r.StatusCode) = some 404) := by
  refine ⟨?_, ?_, ?_⟩
  · intro hq hd
    have key : (GetMeta env c ctx).1 = .ret none (some res) (some .badJSON) := by
      rw [GetMeta_eq_exchange, exchange_response env c ctx _ _ h res hc hq hd hread]
      simp [UnmarshalRegistryMeta, hbody]
    exact ⟨key, by rw [key]; simp [Outcome.response, hstatus]⟩
  · intro hq hd
    have key : (GetPackage env c ctx packageName).1
        = .ret none (some res) (some .badJSON) := by
      rw [GetPackage_eq_exchange, exchange_response env c ctx _ _ h res hc hq hd hread]
      simp [UnmarshalPackage, hbody]
    exact ⟨key, by rw [key]; simp [Outcome.response, hstatus]⟩
  · intro hq hd
    have key : (GetPackageVersion env c ctx packageName version).1
        = .ret none (some res) (some .badJSON) := by
      rw [GetPackageVersion_eq_exchange,
        exchange_response env c ctx _ _ h res hc hq hd hread]
      simp [UnmarshalPackage, hbody]
    exact ⟨key, by rw [key]; simp [Outcome.response, hstatus]⟩

theorem not_found_with_invalid_body_witness :
    (GetPackage (serveEnv (plainResponse 404 "<html>Not Found</html>"))
        { httpClient := some DefaultClient } (.live 1) "no-such-package").1 =
      .ret none (some (plainResponse 404 "<html>Not Found</html>")) (some .badJSON) ∧
    (GetPackage (serveEnv (plainResponse 404 "<html>Not Found</html>"))
        { httpClient := some DefaultClient } (.live 1) "no-such-package").1.response.map
      (fun r => r.StatusCode) = some 404 :=
  (not_found_with_invalid_body (serveEnv (plainResponse 404 "<html>Not Found</html>"))
    { httpClient := some DefaultClient } (.live 1) "no-such-package" "1.0.0" DefaultClient
    (plainResponse 404 "<html>Not Found</html>") rfl rfl rfl rfl).2.1
    (by decide) rfl

theorem exchange_same_body {α : Type} (env : Env) (c : Client) (ctx : Context)
    (path : String) (unmarshal : String → Except Error α) (r₁ r₂ : Response)
    (hbody : r₁.Body = r₂.Body) (herr : r₁.BodyErr = r₂.BodyErr) :
    (exchange (withResponse env r₁) c ctx path unmarshal).1.value =
      (exchange (withResponse env r₂) c ctx path unmarshal).1.value ∧
    (exchange (withResponse env r₁) c ctx path unmarshal).1.err =
      (exchange (withResponse env r₂) c ctx path unmarshal).1.err := by
  rcases hq : env.requestError ctx MethodGet path with _ | e
  · rcases hc : c.httpClient with _ | h
    · simp [exchange, withResponse, hq, hc]
    · rcases hb : r₂.BodyErr with _ | e
      · rcases hu : unmarshal r₂.Body with e | v <;>
          simp [exchange, withResponse, hq, hc, hb, hu, herr, hbody, Outcome.value,
            Outcome.err]
      · simp [exchange, withResponse, hq, hc, hb, herr, Outcome.value, Outcome.err]
  · simp [exchange, withResponse, hq]

theorem exchange_withResponse {α : Type} (env : Env) (c : Client) (ctx : Context)
    (path : String) (unmarshal : String → Except Error α) (r : Response) (x : α)
    (hc : c.httpClient ≠ none) (hq : env.requestError ctx MethodGet path = none)
    (hb : r.BodyErr = none) (hu : unmarshal r.Body = .ok x) :
    (exchange (withResponse env r) c ctx path unmarshal).1 = .ret (some x) (some r) none := by
  rcases hh : c.httpClient with _ | h
  · exact absurd hh hc
  · simp [exchange, withResponse, hq, hh, hb, hu]

/-- C4: the status code has no influence on the decoded value and on the error.  Two
responses with the same body (content and read error) give, for each operation, the same
decoded value and the same error, whatever their status codes; and a response, of status
404 or any other, whose body decodes into the target gives a nil error and the decoded
value. -/
theorem status_code_is_ignored (env : Env) (c : Client) (ctx : Context)
    (packageName version : String) (r₁ r₂ : Response)
    (hbody : r₁.Body = r₂.Body) (herr : r₁.BodyErr = r₂.BodyErr) :
    ((GetMeta (withResponse env r₁) c ctx).1.value =
        (GetMeta (withResponse env r₂) c ctx).1.value ∧
      (GetMeta (withResponse env r₁) c ctx).1.err =
        (GetMeta (withResponse env r₂) c ctx).1.err) ∧
    ((GetPackage (withResponse env r₁) c ctx packageName).1.value =
        (GetPackage (withResponse env r₂) c ctx packageName).1.value ∧
      (GetPackage (withResponse env r₁) c ctx packageName).1.err =
        (GetPackage (withResponse env r₂) c ctx packageName).1.err) ∧
    ((GetPackageVersion (withResponse env r₁) c ctx packageName version).1.value =
        (GetPackageVersion (withResponse env r₂) c ctx packageName version).1.value ∧
      (GetPackageVersion (withResponse env r₁) c ctx packageName version).1.err =
        (GetPackageVersion (withResponse env r₂) c ctx packageName version).1.err) ∧
    (∀ x, c.httpClient ≠ none → env.requestError ctx MethodGet (BaseURL ++ "/") = none →
      r₁.BodyErr = none → UnmarshalRegistryMeta r₁.Body RegistryMeta.zero = .ok x →
      (GetMeta (withResponse env r₁) c ctx).1 = .ret (some x) (some r₁) none) ∧
    (∀ x, c.httpClient ≠ none →
      env.requestError ctx MethodGet (BaseURL ++ "/" ++ packageName) = none →
      r₁.BodyErr = none → UnmarshalPackage env.parseFloat r₁.Body Package.zero = .ok x →
      (GetPackage (withResponse env r₁) c ctx packageName).1
        = .ret (some x) (some r₁) none) ∧
    (∀ x, c.httpClient ≠ none →
      env.requestError ctx MethodGet (BaseURL ++ "/" ++ packageName ++ "/" ++ version)
        = none →
      r₁.BodyErr = none → UnmarshalPackage env.parseFloat r₁.Body Package.zero = .ok x →
      (GetPackageVersion (withResponse env r₁) c ctx packageName version).1
        = .ret (some x) (some r₁) none) := by
  simp only [GetMeta_eq_exchange, GetPackage_eq_exchange, GetPackageVersion_eq_exchange]
  refine ⟨exchange_same_body env c ctx _ _ r₁ r₂ hbody herr,
    exchange_same_body env c ctx _ _ r₁ r₂ hbody herr,
    exchange_same_body env c ctx _ _ r₁ r₂ hbody herr, ?_, ?_, ?_⟩
  · intro x hc hq hb hu
    exact exchange_withResponse env c ctx _ _ r₁ x hc hq hb hu
  · intro x hc hq hb hu
    exact exchange_withResponse env c ctx _ _ r₁ x hc hq hb hu
  · intro x hc hq hb hu
    exact exchange_withResponse env c ctx _ _ r₁ x hc hq hb hu

set_option maxRecDepth 100000 in
theorem status_code_is_ignored_witness :
    ((GetPackage (withResponse echoEnv (plainResponse 200 "\x7b\"error\":\"Not found\"\x7d"))
        { httpClient := some DefaultClient } (.live 1) "jquery").1.value =
      (GetPackage (withResponse echoEnv (plainResponse 404 "\x7b\"error\":\"Not found\"\x7d"))
        { httpClient := some DefaultClient } (.live 1) "jquery").1.value ∧
     (GetPackage (withResponse echoEnv (plainResponse 200 "\x7b\"error\":\"Not found\"\x7d"))
        { httpClient := some DefaultClient } (.live 1) "jquery").1.err =
      (GetPackage (withResponse echoEnv (plainResponse 404 "\x7b\"error\":\"Not found\"\x7d"))
        { httpClient := some DefaultClient } (.live 1) "jquery").1.err) ∧
    (GetPackage (withResponse echoEnv (plainResponse 404 "\x7b\"error\":\"Not found\"\x7d"))
        { httpClient := some DefaultClient } (.live 1) "jquery").1 =
      .ret (some Package.zero)
        (some (plainResponse 404 "\x7b\"error\":\"Not found\"\x7d")) none :=
  ⟨(status_code_is_ignored echoEnv { httpClient := some DefaultClient } (.live 1)
      "jquery" "3.6.0" (plainResponse 200 "\x7b\"error\":\"Not found\"\x7d")
      (plainResponse 404 "\x7b\"error\":\"Not found\"\x7d") rfl rfl).2.1,
   (status_code_is_ignored echoEnv { httpClient := some DefaultClient } (.live 1)
      "jquery" "3.6.0" (plainResponse 404 "\x7b\"error\":\"Not found\"\x7d")
      (plainResponse 404 "\x7b\"error\":\"Not found\"\x7d") rfl rfl).2.2.2.2.1
      Package.zero (by decide) (by decide) rfl rfl⟩

theorem foldl_withHttpClient (c : Nat) (hs : List (Option HttpClient)) (heap : Heap) :
    (hs.map WithHttpClient).foldl (fun h opt => opt c h) heap =
      match hs.getLast? with
      | none => heap
      | some x => heap.set c { httpClient := x } := by
  induction hs generalizing heap with
  | nil => rfl
  | cons a tl ih =>
    simp only [List.map_cons, List.foldl_cons]
    rw [ih]
    cases tl with
    | nil => simp [WithHttpClient]
    | cons b tl2 =>
      simp only [List.getLast?_cons_cons]
      cases hl : (b :: tl2).getLast? with
      | none => simp at hl
      | some x => simp [WithHttpClient, List.set_set]

/-- C9: `NewClient` with no option yields a client whose HTTP client is the default one,
and `NewClient` with options `WithHttpClient` yields a client whose HTTP client is the one
of the last option; the client is allocated at a new address and every client that existed
before is left as it was.  An operation called on the client that `NewClient` built, and
on any client whose HTTP client is `h`, hands its request to `h`: when request construction
succeeds the requests issued are exactly the one request to `h`, and no request is issued
otherwise. -/
theorem newClient_transport (env : Env) (heap : Heap) (hs : List (Option HttpClient))
    (ctx : Context) (packageName version : String) :
    (NewClient [] heap).2[(NewClient [] heap).1]? = some { httpClient := some DefaultClient } ∧
    (NewClient (hs.map WithHttpClient) heap).2[(NewClient (hs.map WithHttpClient) heap).1]? =
      some { httpClient := hs.getLast?.getD (some DefaultClient) } ∧
    (∀ p, p < heap.length → (NewClient (hs.map WithHttpClient) heap).2[p]? = heap[p]?) ∧
    (∀ (c : Client) (h : HttpClient),
      ((NewClient (hs.map WithHttpClient) heap).2[(NewClient (hs.map WithHttpClient) heap).1]?
          = some c ∧ hs.getLast?.getD (some DefaultClient) = some h) ∨
        c.httpClient = some h →
      requests (GetMeta env c ctx).2 =
        (if env.requestError ctx MethodGet (BaseURL ++ "/") = none then
          [(h, { ctx := ctx, method := MethodGet, url := BaseURL ++ "/" })]
         else []) ∧
      requests (GetPackage env c ctx packageName).2 =
        (if env.requestError ctx MethodGet (BaseURL ++ "/" ++ packageName) = none then
          [(h, { ctx := ctx, method := MethodGet, url := BaseURL ++ "/" ++ packageName })]
         else []) ∧
      requests (GetPackageVersion env c ctx packageName version).2 =
        (if env.requestError ctx MethodGet
            (BaseURL ++ "/" ++ packageName ++ "/" ++ version) = none then
          [(h, { ctx := ctx, method := MethodGet,
                 url := BaseURL ++ "/" ++ packageName ++ "/" ++ version })]
         else [])) := by
  have hbuilt : (NewClient (hs.map WithHttpClient) heap).2[
      (NewClient (hs.map WithHttpClient) heap).1]? =
      some { httpClient := hs.getLast?.getD (some DefaultClient) } := by
    simp only [NewClient, foldl_withHttpClient]
    cases hl : hs.getLast? with
    | none => simp
    | some x => simp
  refine ⟨?_, hbuilt, ?_, ?_⟩
  · simp [NewClient]
  · intro p hp
    simp only [NewClient, foldl_withHttpClient]
    cases hl : hs.getLast? with
    | none => simp [List.getElem?_append_left hp]
    | some x =>
      simp only []
      rw [List.getElem?_set_ne (by omega), List.getElem?_append_left hp]
  · intro c h hch
    have hc : c.httpClient = some h := by
      rcases hch with ⟨hb, hl⟩ | hc
      · rw [hbuilt] at hb
        cases hb
        exact hl
      · exact hc
    simp only [GetMeta_eq_exchange, GetPackage_eq_exchange, GetPackageVersion_eq_exchange]
    exact ⟨exchange_requests env c ctx _ _ h hc, exchange_requests env c ctx _ _ h hc,
      exchange_requests env c ctx _ _ h hc⟩

theorem newClient_transport_witness :
    (NewClient [WithHttpClient (some { addr := 7 })] [{ httpClient := some { addr := 9 } }]).2
      = [{ httpClient := some { addr := 9 } }, { httpClient := some { addr := 7 } }] ∧
    requests (GetMeta echoEnv { httpClient := some { addr := 7 } } (.live 1)).2 =
      [({ addr := 7 }, { ctx := .live 1, method := MethodGet, url := BaseURL ++ "/" })] ∧
    (GetMeta echoEnv { httpClient := some { addr := 7 } } (.live 1)).1.response.map
      (fun r => r.Header) = some [("Via", "7")] :=
  ⟨by decide,
   (((newClient_transport echoEnv [{ httpClient := some { addr := 9 } }]
      [some { addr := 7 }] (.live 1) "jquery" "3.6.0").2.2.2
      { httpClient := some { addr := 7 } } { addr := 7 } (Or.inl ⟨by decide, rfl⟩)).1).trans
      (by decide),
   by decide⟩

theorem foldlM_skip {σ β : Type} (f : σ → β → Except Error σ) (x : σ)
    (l₁ l₂ : List β)
    (m : β) (hm : ∀ s, f s m = .ok s) :
    (l₁ ++ m :: l₂).foldlM f x = (l₁ ++ l₂).foldlM f x := by
  induction l₁ generalizing x with
  | nil =>
    simp only [List.nil_append, List.foldlM_cons, hm]
    rfl
  | cons a tl ih =>
    simp only [List.cons_append, List.foldlM_cons]
    cases f x a with
    | error e => rfl
    | ok s => exact ih s

theorem exchange_withResponse_inv {α : Type} (env : Env) (c : Client) (ctx : Context)
    (path : String) (unmarshal : String → Except Error α) (r : Response) (x : α)
    (res : Option Response)
    (hx : (exchange (withResponse env r) c ctx path unmarshal).1 = .ret (some x) res none) :
    c.httpClient ≠ none ∧ env.requestError ctx MethodGet path = none ∧ r.BodyErr = none ∧
      unmarshal r.Body = .ok x := by
  rcases hq : env.requestError ctx MethodGet path with _ | e
  · rcases hc : c.httpClient with _ | h
    · simp [exchange, withResponse, hq, hc] at hx
    · rcases hb : r.BodyErr with _ | e
      · rcases hu : unmarshal r.Body with e | v
        · simp [exchange, withResponse, hq, hc, hb, hu] at hx
        · simp [exchange, withResponse, hq, hc, hb, hu] at hx
          simp [hx.1]
      · simp [exchange, withResponse, hq, hc, hb] at hx
  · simp [exchange, withResponse, hq] at hx

theorem exchange_extra_member {α : Type} (env : Env) (c : Client) (ctx : Context)
    (path : String) (unmarshal : String → Except Error α) (r r' : Response) (x : α)
    (hread : r'.BodyErr = none) (hsame : unmarshal r'.Body = unmarshal r.Body)
    (hx : (exchange (withResponse env r) c ctx path unmarshal).1
      = .ret (some x) (some r) none) :
    (exchange (withResponse env r') c ctx path unmarshal).1
      = .ret (some x) (some r') none := by
  obtain ⟨hc, hq, _, hu⟩ := exchange_withResponse_inv env c ctx path unmarshal r x _ hx
  exact exchange_withResponse env c ctx path unmarshal r' x hc hq hread (hsame.trans hu)

theorem unmarshalRegistryMeta_extra (body body' : String) (ms₁ ms₂ : List (String × JSON))
    (k : String) (v : JSON)
    (hbody : parseJSON body = some (.obj (ms₁ ++ ms₂)))
    (hbody' : parseJSON body' = some (.obj (ms₁ ++ (k, v) :: ms₂)))
    (hk : lookupField MetaField.key MetaField.all k = none) (r : RegistryMeta) :
    UnmarshalRegistryMeta body' r = UnmarshalRegistryMeta body r := by
  simp only [UnmarshalRegistryMeta, hbody, hbody', decodeRegistryMeta]
  exact foldlM_skip _ _ _ _ _ (fun s => by simp [decodeMetaMember, hk])

theorem unmarshalPackage_extra (pf : ParseFloat) (body body' : String)
    (ms₁ ms₂ : List (String × JSON)) (k : String) (v : JSON)
    (hbody : parseJSON body = some (.obj (ms₁ ++ ms₂)))
    (hbody' : parseJSON body' = some (.obj (ms₁ ++ (k, v) :: ms₂)))
    (hk : lookupField PackageField.key PackageField.all k = none) (p : Package) :
    UnmarshalPackage pf body' p = UnmarshalPackage pf body p := by
  simp only [UnmarshalPackage, hbody, hbody', decodePackage]
  exact foldlM_skip _ _ _ _ _ (fun s => by simp [decodePackageMember, hk])

/-- C7, amended: unknown members are ignored, as long as the text stays within what the
syntax check accepts.  Let the body of `r` be a JSON object and let the body of `r'` be a
JSON text the decoder accepts (so nested at most 10000 levels deep) for that object with
one more member `(k, v)`, at any position and with any value `v`, whose key selects no
field of the target struct.  Whenever an operation returns a decoded value `x` without
error for `r`, it returns the same `x` without error for `r'`. -/
theorem unknown_member_is_ignored (env : Env) (c : Client) (ctx : Context)
    (packageName version : String) (r r' : Response) (ms₁ ms₂ : List (String × JSON))
    (k : String) (v : JSON)
    (hbody : parseJSON r.Body = some (.obj (ms₁ ++ ms₂)))
    (hbody' : parseJSON r'.Body = some (.obj (ms₁ ++ (k, v) :: ms₂)))
    (hread : r'.BodyErr = none) :
    (lookupField MetaField.key MetaField.all k = none →
      ∀ x, (GetMeta (withResponse env r) c ctx).1 = .ret (some x) (some r) none →
        (GetMeta (withResponse env r') c ctx).1 = .ret (some x) (some r') none) ∧
    (lookupField PackageField.key PackageField.all k = none →
      (∀ x, (GetPackage (withResponse env r) c ctx packageName).1
          = .ret (some x) (some r) none →
        (GetPackage (withResponse env r') c ctx packageName).1
          = .ret (some x) (some r') none) ∧
      (∀ x, (GetPackageVersion (withResponse env r) c ctx packageName version).1
          = .ret (some x) (some r) none →
        (GetPackageVersion (withResponse env r') c ctx packageName version).1
          = .ret (some x) (some r') none)) := by
  simp only [GetMeta_eq_exchange, GetPackage_eq_exchange, GetPackageVersion_eq_exchange]
  refine ⟨fun hk x hx => ?_, fun hk => ⟨fun x hx => ?_, fun x hx => ?_⟩⟩
  · exact exchange_extra_member env c ctx _ _ r r' x hread
      (unmarshalRegistryMeta_extra _ _ ms₁ ms₂ k v hbody hbody' hk _) hx
  · exact exchange_extra_member env c ctx _ _ r r' x hread
      (unmarshalPackage_extra _ _ _ ms₁ ms₂ k v hbody hbody' hk _) hx
  · exact exchange_extra_member env c ctx _ _ r r' x hread
      (unmarshalPackage_extra _ _ _ ms₁ ms₂ k v hbody hbody' hk _) hx

theorem lastSelecting_snoc {F : Type} [DecidableEq F] (name : F → String) (fields : List F)
    (f : F) (ms : List (String × JSON)) (m : String × JSON) :
    lastSelecting name fields f (ms ++ [m]) =
      if lookupField name fields m.1 = some f then some m.2
      else lastSelecting name fields f ms := by
  simp [lastSelecting, List.foldl_append]

theorem foldlM_snoc {σ β : Type} (f : σ → β → Except Error σ) (x s : σ) (l : List β)
    (m : β)
    (hl : l.foldlM f x = .ok s) : (l ++ [m]).foldlM f x = f s m := by
  rw [List.foldlM_append, hl]
  show ([m].foldlM f s) = f s m
  rw [List.foldlM_cons]
  cases f s m <;> rfl

theorem decodeMetaMember_fits (ms : List (String × JSON)) (m : String × JSON)
    (hfit : ∀ f, lookupField MetaField.key MetaField.all m.1 = some f →
      f.kind.fits m.2 = true) :
    decodeMetaMember (metaOfMembers ms) m = .ok (metaOfMembers (ms ++ [m])) := by
  rcases m with ⟨k, j⟩
  simp only [decodeMetaMember]
  rcases hl : lookupField MetaField.key MetaField.all k with _ | f
  · simp [metaOfMembers, lastSelecting_snoc, hl]
  · have hf := hfit f hl
    cases f <;> cases j <;>
      simp [MetaField.kind, ScalarKind.fits] at hf <;>
      simp [decodeMetaField, decodeString, decodeInt, decodeBool, metaOfMembers,
        lastSelecting_snoc, hl, stringOf, intOf, boolOf, Except.map]
    all_goals
      rename_i lit
      rcases hp : parseInt lit with _ | n
      · simp [hp] at hf
      · simp

theorem decodeMembers_fits (ms : List (String × JSON))
    (hfit : ∀ m ∈ ms, ∀ f, lookupField MetaField.key MetaField.all m.1 = some f →
      f.kind.fits m.2 = true) :
    ms.foldlM decodeMetaMember RegistryMeta.zero = .ok (metaOfMembers ms) := by
  induction ms using List.reverseRecOn with
  | nil => rfl
  | append_singleton l m ih =>
    rw [foldlM_snoc _ _ _ _ _ (ih (fun x hx => hfit x (List.mem_append_left _ hx)))]
    exact decodeMetaMember_fits l m (hfit m (by simp))

set_option maxRecDepth 100000 in
/-- C5 as stated fails: in the object with the single member `DB_NAME` no member is named
by a tag of `RegistryMeta`, so that every field should be zero; yet `GetMeta` returns
`DBName = "x"`, because the decoder also matches keys up to letter case. -/
theorem getMeta_exact_tag_counterexample :
    parseJSON "\x7b\"DB_NAME\":\"x\"\x7d" = some (.obj [("DB_NAME", .str "x")]) ∧
    (∀ f : MetaField, f.key ≠ "DB_NAME") ∧
    (GetMeta (serveEnv (plainResponse 200 "\x7b\"DB_NAME\":\"x\"\x7d"))
        { httpClient := some DefaultClient } (.live 1)).1 =
      .ret (some { RegistryMeta.zero with DBName := "x" })
        (some (plainResponse 200 "\x7b\"DB_NAME\":\"x\"\x7d")) none ∧
    ({ RegistryMeta.zero with DBName := "x" } : RegistryMeta).DBName ≠
      RegistryMeta.zero.DBName := by
  refine ⟨rfl, ?_, rfl, by decide⟩
  intro f
  cases f <;> decide

set_option maxRecDepth 100000 in
/-- C5, amended: for every response body that is a JSON object, `GetMeta` succeeds whenever
each member whose key selects a field of `RegistryMeta` (the key is the tag of the field,
or equals it up to letter case) has the type of that field, and every field of the result
has the value of the last member that selects it and the zero value when no member selects
it.  For the body `{"db_name":"registry","doc_count":5}` the result has
`DBName = "registry"`, `DocCount = 5` and every other field zero. -/
theorem getMeta_decodes_members (env : Env) (c : Client) (ctx : Context) (r : Response)
    (ms : List (String × JSON))
    (hc : c.httpClient ≠ none)
    (hq : env.requestError ctx MethodGet (BaseURL ++ "/") = none)
    (hread : r.BodyErr = none) (hbody : parseJSON r.Body = some (.obj ms))
    (hfit : ∀ m ∈ ms, ∀ f, lookupField MetaField.key MetaField.all m.1 = some f →
      f.kind.fits m.2 = true) :
    (GetMeta (withResponse env r) c ctx).1 = .ret (some (metaOfMembers ms)) (some r) none ∧
    (r.Body = "\x7b\"db_name\":\"registry\",\"doc_count\":5\x7d" →
      metaOfMembers ms = { RegistryMeta.zero with DBName := "registry", DocCount := 5 }) := by
  constructor
  · rw [GetMeta_eq_exchange]
    apply exchange_withResponse env c ctx _ _ r _ hc hq hread
    simp only [UnmarshalRegistryMeta, hbody, decodeRegistryMeta]
    exact decodeMembers_fits ms hfit
  · intro hb
    rw [hb] at hbody
    have hp : parseJSON "\x7b\"db_name\":\"registry\",\"doc_count\":5\x7d" =
        some (.obj [("db_name", .str "registry"), ("doc_count", .num "5")]) := rfl
    rw [hp] at hbody
    cases hbody
    rfl

set_option maxRecDepth 100000 in
theorem getMeta_decodes_members_witness :
    (GetMeta
        (withResponse echoEnv
          (plainResponse 200 "\x7b\"db_name\":\"registry\",\"doc_count\":5\x7d"))
        { httpClient := some DefaultClient } (.live 1)).1 =
      .ret (some { RegistryMeta.zero with DBName := "registry", DocCount := 5 })
        (some (plainResponse 200 "\x7b\"db_name\":\"registry\",\"doc_count\":5\x7d")) none :=
  (getMeta_decodes_members echoEnv { httpClient := some DefaultClient } (.live 1)
    (plainResponse 200 "\x7b\"db_name\":\"registry\",\"doc_count\":5\x7d")
    [("db_name", .str "registry"), ("doc_count", .num "5")]
    (by decide) (by decide) rfl rfl
    (by
      intro m hm f hf
      simp only [List.mem_cons, List.mem_singleton, List.not_mem_nil, or_false] at hm
      rcases hm with rfl | rfl
      · have h1 : lookupField MetaField.key MetaField.all "db_name" = some .DBName := by
          decide
        rw [h1] at hf
        cases hf
        rfl
      · have h1 : lookupField MetaField.key MetaField.all "doc_count" = some .DocCount := by
          decide
        rw [h1] at hf
        cases hf
        rfl)).1

theorem mapGet_mapSet {V : Type} (m : List (String × V)) (k k' : String) (v : V) :
    mapGet (mapSet m k v) k' = if k = k' then some v else mapGet m k' := by
  induction m with
  | nil => simp [mapSet, mapGet]
  | cons e tl ih =>
    simp only [mapSet]
    by_cases h1 : k < e.1
    · simp [h1, mapGet]
    · by_cases h2 : k = e.1
      · subst h2
        by_cases h3 : e.1 = k' <;> simp [h1, h3, mapGet]
      · simp only [h1, h2, if_false, mapGet, ih]
        by_cases h3 : e.1 = k'
        · have h4 : ¬ k = k' := fun h => h2 (h.trans h3.symm)
          simp [h3, h4]
        · simp [h3]

theorem lastString_start (ts : List (String × JSON)) (k : String) (start : Option String) :
    lastString ts k start =
      match lastString ts k none with
      | some v => some v
      | none => start := by
  induction ts using List.reverseRecOn with
  | nil => rfl
  | append_singleton l t ih =>
    simp only [lastString, List.foldl_append, List.foldl_cons, List.foldl_nil] at ih ⊢
    by_cases h : t.1 = k
    · simp [h]
    · simp only [h, if_false]
      exact ih

theorem lastString_idem (ts : List (String × JSON)) (k : String) :
    lastString ts k (lastString ts k none) = lastString ts k none := by
  rw [lastString_start ts k (lastString ts k none)]
  cases lastString ts k none <;> rfl

theorem decodeStringEntries (ts : List (String × JSON)) (acc : List (String × String))
    (hts : ∀ t ∈ ts, ∃ v, t.2 = .str v) :
    ∃ m, ts.foldlM decodeStringEntry acc = .ok m ∧
      ∀ k, mapGet m k = lastString ts k (mapGet acc k) := by
  induction ts generalizing acc with
  | nil => exact ⟨acc, rfl, fun k => rfl⟩
  | cons t tl ih =>
    obtain ⟨v, hv⟩ := hts t (by simp)
    obtain ⟨m, hm, hget⟩ := ih (mapSet acc t.1 v) (fun x hx => hts x (by simp [hx]))
    refine ⟨m, ?_, ?_⟩
    · rw [List.foldlM_cons]
      simp only [decodeStringEntry, hv, decodeString]
      exact hm
    · intro k
      rw [hget k, mapGet_mapSet]
      simp [lastString, hv, stringOf]

theorem except_map_ok {α β : Type} (f : α → β) (x : Except Error α) (y : β)
    (h : x.map f = .ok y) : ∃ a, x = .ok a ∧ f a = y := by
  cases x with
  | error e => simp [Except.map] at h
  | ok a => exact ⟨a, rfl, by simpa [Except.map] using h⟩

theorem decodePackageField_frame (pf : ParseFloat) (f : PackageField) (j : JSON)
    (p p' : Package) (h : decodePackageField pf f j p = .ok p') :
    (f ≠ .Name → p'.Name = p.Name) ∧ (f ≠ .DistTags → p'.DistTags = p.DistTags) := by
  cases f <;> simp only [decodePackageField] at h <;>
    obtain ⟨a, _, ha⟩ := except_map_ok _ _ _ h <;> subst ha <;> simp

theorem selectsPackageField_snoc (f : PackageField) (ms : List (String × JSON))
    (m : String × JSON) :
    selectsPackageField f (ms ++ [m]) =
      (selectsPackageField f ms ||
        (lookupField PackageField.key PackageField.all m.1 == some f)) := by
  simp [selectsPackageField]

theorem decodePackageMembers_name_tags (pf : ParseFloat) (s : String)
    (ts ms : List (String × JSON))
    (hname : ∀ m ∈ ms, lookupField PackageField.key PackageField.all m.1 = some .Name →
      m.2 = .str s)
    (htags : ∀ m ∈ ms, lookupField PackageField.key PackageField.all m.1 = some .DistTags →
      m.2 = .obj ts)
    (hts : ∀ t ∈ ts, ∃ v, t.2 = .str v)
    (hother : ∀ m ∈ ms, ∀ f, lookupField PackageField.key PackageField.all m.1 = some f →
      f ≠ .Name → f ≠ .DistTags → ∀ p, ∃ p', decodePackageField pf f m.2 p = .ok p') :
    ∃ p, ms.foldlM (decodePackageMember pf) Package.zero = .ok p ∧
      p.Name = (if selectsPackageField .Name ms then s else "") ∧
      (if selectsPackageField .DistTags ms then
        ∃ mp, p.DistTags = some mp ∧ ∀ k, mapGet mp k = lastString ts k none
       else p.DistTags = none) := by
  induction ms using List.reverseRecOn with
  | nil => exact ⟨Package.zero, rfl, rfl, rfl⟩
  | append_singleton l m ih =>
    obtain ⟨p, hp, hn, ht⟩ := ih
      (fun x hx => hname x (List.mem_append_left _ hx))
      (fun x hx => htags x (List.mem_append_left _ hx))
      (fun x hx => hother x (List.mem_append_left _ hx))
    rw [foldlM_snoc _ _ _ _ _ hp]
    simp only [selectsPackageField_snoc]
    rcases hl : lookupField PackageField.key PackageField.all m.1 with _ | f
    · refine ⟨p, by simp [decodePackageMember, hl], ?_, ?_⟩
      · simpa using hn
      · simpa using ht
    · by_cases hfn : f = .Name
      · subst hfn
        have hm := hname m (by simp) hl
        refine ⟨{ p with Name := s }, ?_, by simp, ?_⟩
        · simp [decodePackageMember, hl, decodePackageField, hm, decodeString, Except.map]
        · simpa using ht
      · by_cases hft : f = .DistTags
        · subst hft
          have hm := htags m (by simp) hl
          obtain ⟨mp, hmp, hget⟩ := decodeStringEntries ts (p.DistTags.getD []) hts
          refine ⟨{ p with DistTags := some mp }, ?_, ?_, ?_⟩
          · simp [decodePackageMember, hl, decodePackageField, hm, decodeStringMap, hmp,
              Except.map]
          · simpa using hn
          · simp only [beq_self_eq_true, Bool.or_true, if_true]
            refine ⟨mp, rfl, fun k => ?_⟩
            rw [hget k]
            by_cases hsel : selectsPackageField .DistTags l = true
            · rw [if_pos hsel] at ht
              obtain ⟨mp0, hmp0, hget0⟩ := ht
              rw [hmp0, Option.getD_some, hget0 k]
              exact lastString_idem ts k
            · rw [if_neg hsel] at ht
              rw [ht]
              rfl
        · obtain ⟨p', hp'⟩ := hother m (by simp) f hl hfn hft p
          obtain ⟨h1, h2⟩ := decodePackageField_frame pf f m.2 p p' hp'
          have e1 : (some f == some PackageField.Name) = false := by simpa using hfn
          have e2 : (some f == some PackageField.DistTags) = false := by simpa using hft
          refine ⟨p', by simp [decodePackageMember, hl, hp'], ?_, ?_⟩
          · rw [h1 hfn, e1, Bool.or_false]
            exact hn
          · rw [h2 hft, e2, Bool.or_false]
            exact ht

set_option maxRecDepth 100000 in
/-- C6 as stated fails: the object below has a string member `name` and an object member
`dist-tags` that maps strings to strings, and `GetPackage` returns a type error and no
package, because the member `readme` is a number. -/
theorem getPackage_other_member_counterexample :
    parseJSON
        "\x7b\"name\":\"jquery\",\"dist-tags\":\x7b\"latest\":\"3.6.0\"\x7d,\"readme\":5\x7d" =
      some (.obj [("name", .str "jquery"), ("dist-tags", .obj [("latest", .str "3.6.0")]),
        ("readme", .num "5")]) ∧
    (GetPackage
        (serveEnv (plainResponse 200
          "\x7b\"name\":\"jquery\",\"dist-tags\":\x7b\"latest\":\"3.6.0\"\x7d,\"readme\":5\x7d"))
        { httpClient := some DefaultClient } (.live 1) "jquery").1 =
      .ret none
        (some (plainResponse 200
          "\x7b\"name\":\"jquery\",\"dist-tags\":\x7b\"latest\":\"3.6.0\"\x7d,\"readme\":5\x7d"))
        (some (.unmarshalType "number")) :=
  ⟨rfl, rfl⟩

/-- C6, amended: for every package name and every response body that is a JSON object in
which some member selects the field `Name` and every member that does is the string `s`,
some member selects the field `DistTags` and every member that does is the object `ts`,
whose values are strings, and the value of every other member that selects a field of
`Package` decodes into that field without error, `GetPackage` returns a nil error and a
`Package` whose `Name` is `s` and whose `DistTags` is a map that holds exactly the pairs of
`ts`: every key has the value of the last member of `ts` with that key, and no other key is
present.  (A member selects a field when its key is the JSON name of the field, or equals
it up to letter case.) -/
theorem getPackage_name_and_tags (env : Env) (c : Client) (ctx : Context)
    (packageName : String) (r : Response) (s : String) (ts ms : List (String × JSON))
    (hc : c.httpClient ≠ none)
    (hq : env.requestError ctx MethodGet (BaseURL ++ "/" ++ packageName) = none)
    (hread : r.BodyErr = none) (hbody : parseJSON r.Body = some (.obj ms))
    (hnameEx : selectsPackageField .Name ms = true)
    (hname : ∀ m ∈ ms, lookupField PackageField.key PackageField.all m.1 = some .Name →
      m.2 = .str s)
    (htagsEx : selectsPackageField .DistTags ms = true)
    (htags : ∀ m ∈ ms, lookupField PackageField.key PackageField.all m.1 = some .DistTags →
      m.2 = .obj ts)
    (hts : ∀ t ∈ ts, ∃ v, t.2 = .str v)
    (hother : ∀ m ∈ ms, ∀ f, lookupField PackageField.key PackageField.all m.1 = some f →
      f ≠ .Name → f ≠ .DistTags →
      ∀ p, ∃ p', decodePackageField env.parseFloat f m.2 p = .ok p') :
    ∃ p mp, (GetPackage (withResponse env r) c ctx packageName).1
        = .ret (some p) (some r) none ∧
      p.Name = s ∧ p.DistTags = some mp ∧ ∀ k, mapGet mp k = lastString ts k none := by
  obtain ⟨p, hp, hn, ht⟩ :=
    decodePackageMembers_name_tags env.parseFloat s ts ms hname htags hts hother
  rw [if_pos hnameEx] at hn
  rw [if_pos htagsEx] at ht
  obtain ⟨mp, hmp, hget⟩ := ht
  refine ⟨p, mp, ?_, hn, hmp, hget⟩
  rw [GetPackage_eq_exchange]
  apply exchange_withResponse env c ctx _ _ r _ hc hq hread
  simp only [UnmarshalPackage, hbody, decodePackage]
  exact hp

set_option maxRecDepth 100000 in
theorem getPackage_name_and_tags_witness :
    ∃ p mp,
      (GetPackage
          (withResponse echoEnv
            (plainResponse 200
              "\x7b\"name\":\"jquery\",\"dist-tags\":\x7b\"latest\":\"3.6.0\"\x7d\x7d"))
          { httpClient := some DefaultClient } (.live 1) "jquery").1 =
        .ret (some p)
          (some (plainResponse 200
            "\x7b\"name\":\"jquery\",\"dist-tags\":\x7b\"latest\":\"3.6.0\"\x7d\x7d")) none ∧
      p.Name = "jquery" ∧ p.DistTags = some mp ∧
      mapGet mp "latest" = some "3.6.0" ∧ mapGet mp "next" = none := by
  have hN : lookupField PackageField.key PackageField.all "name" = some .Name := by decide
  have hT : lookupField PackageField.key PackageField.all "dist-tags" = some .DistTags := by
    decide
  obtain ⟨p, mp, h1, h2, h3, h4⟩ :=
    getPackage_name_and_tags echoEnv { httpClient := some DefaultClient } (.live 1) "jquery"
      (plainResponse 200
        "\x7b\"name\":\"jquery\",\"dist-tags\":\x7b\"latest\":\"3.6.0\"\x7d\x7d")
      "jquery" [("latest", .str "3.6.0")]
      [("name", .str "jquery"), ("dist-tags", .obj [("latest", .str "3.6.0")])]
      (by decide) (by decide) rfl rfl (by decide)
      (by
        intro m hm hf
        simp only [List.mem_cons, List.mem_singleton, List.not_mem_nil, or_false] at hm
        rcases hm with rfl | rfl
        · rfl
        · rw [hT] at hf
          cases hf)
      (by decide)
      (by
        intro m hm hf
        simp only [List.mem_cons, List.mem_singleton, List.not_mem_nil, or_false] at hm
        rcases hm with rfl | rfl
        · rw [hN] at hf
          cases hf
        · rfl)
      (by
        intro t ht
        simp only [List.mem_singleton] at ht
        subst ht
        exact ⟨"3.6.0", rfl⟩)
      (by
        intro m hm f hf hn ht
        simp only [List.mem_cons, List.mem_singleton, List.not_mem_nil, or_false] at hm
        rcases hm with rfl | rfl
        · rw [hN] at hf
          cases hf
          exact absurd rfl hn
        · rw [hT] at hf
          cases hf
          exact absurd rfl ht)
  exact ⟨p, mp, h1, h2, h3, (h4 "latest").trans (by decide), (h4 "next").trans (by decide)⟩

set_option maxRecDepth 100000 in
theorem unknown_member_is_ignored_witness :
    (GetMeta
        (withResponse echoEnv
          (plainResponse 200 "\x7b\"db_name\":\"registry\",\"engine\":[1,\x7b\"v\":null\x7d]\x7d"))
        { httpClient := some DefaultClient } (.live 1)).1 =
      .ret (some { RegistryMeta.zero with DBName := "registry" })
        (some (plainResponse 200
          "\x7b\"db_name\":\"registry\",\"engine\":[1,\x7b\"v\":null\x7d]\x7d")) none :=
  (unknown_member_is_ignored echoEnv { httpClient := some DefaultClient } (.live 1)
    "jquery" "3.6.0" (plainResponse 200 "\x7b\"db_name\":\"registry\"\x7d")
    (plainResponse 200 "\x7b\"db_name\":\"registry\",\"engine\":[1,\x7b\"v\":null\x7d]\x7d")
    [("db_name", .str "registry")] [] "engine" (.arr [.num "1", .obj [("v", .null)]])
    rfl rfl rfl).1 (by decide) { RegistryMeta.zero with DBName := "registry" } rfl

theorem isDigit_digitChar (n : Nat) : isDigit (digitChar n) = true := by
  have h : n % 10 < 10 := Nat.mod_lt _ (by decide)
  unfold digitChar
  interval_cases (n % 10) <;> decide

theorem digitChar_val (n : Nat) : (digitChar n).toNat - '0'.toNat = n % 10 := by
  have h : n % 10 < 10 := Nat.mod_lt _ (by decide)
  unfold digitChar
  interval_cases hm : (n % 10) <;> decide

theorem digitChar_ne (n : Nat) : digitChar n ≠ '-' ∧ digitChar n ≠ '+' := by
  have h : n % 10 < 10 := Nat.mod_lt _ (by decide)
  unfold digitChar
  interval_cases (n % 10) <;> decide

theorem parseDigits_natDigits (fuel n : Nat) (acc : List Char) (h : n < fuel) :
    parseDigits (natDigits fuel n acc) 0 = parseDigits acc n := by
  induction fuel generalizing n acc with
  | zero => omega
  | succ k ih =>
    unfold natDigits
    split
    · rename_i hlt
      simp only [parseDigits, isDigit_digitChar, if_true, digitChar_val]
      rw [Nat.mod_eq_of_lt hlt]
      simp
    · rename_i hge
      rw [ih (n / 10) _ (by omega)]
      simp only [parseDigits, isDigit_digitChar, if_true, digitChar_val]
      congr 1
      omega

theorem natDigits_head (fuel n : Nat) (acc : List Char) :
    ∃ d rest, natDigits (fuel + 1) n acc = digitChar d :: rest := by
  induction fuel generalizing n acc with
  | zero =>
    unfold natDigits
    split
    · exact ⟨n, acc, rfl⟩
    · exact ⟨n, acc, rfl⟩
  | succ k ih =>
    unfold natDigits
    split
    · exact ⟨n, acc, rfl⟩
    · exact ih _ _

theorem parseInt_unsigned (c : Char) (cs : List Char) (n : Nat) (h1 : c ≠ '-')
    (h2 : c ≠ '+') (hp : parseDigits (c :: cs) 0 = some n) (hn : n < 2 ^ 63) :
    parseInt (String.mk (c :: cs)) = some (n : Int) := by
  unfold parseInt
  have e : (match (String.mk (c :: cs)).data with
      | '-' :: ds => (true, ds)
      | '+' :: ds => (false, ds)
      | ds => (false, ds)) = (false, c :: cs) := by
    show (match c :: cs with
      | '-' :: ds => (true, ds)
      | '+' :: ds => (false, ds)
      | ds => (false, ds)) = (false, c :: cs)
    split
    · rename_i heq
      simp only [List.cons.injEq] at heq
      exact absurd heq.1 h1
    · rename_i heq
      simp only [List.cons.injEq] at heq
      exact absurd heq.1 h2
    · rfl
  simp only [e, hp]
  simp
  omega

theorem parseInt_negative (c : Char) (cs : List Char) (n : Nat)
    (hp : parseDigits (c :: cs) 0 = some n) (hn : n ≤ 2 ^ 63) :
    parseInt (String.mk ('-' :: c :: cs)) = some (-(n : Int)) := by
  unfold parseInt
  have e : (match (String.mk ('-' :: c :: cs)).data with
      | '-' :: ds => (true, ds)
      | '+' :: ds => (false, ds)
      | ds => (false, ds)) = (true, c :: cs) := rfl
  simp only [e, hp]
  simp
  omega

theorem parseInt_formatInt (n : Int) (h : inInt64 n) : parseInt (formatInt n) = some n := by
  obtain ⟨h1, h2⟩ := h
  cases n with
  | ofNat k =>
    obtain ⟨d, rest, hd⟩ := natDigits_head k k []
    have hp := parseDigits_natDigits (k + 1) k [] (by omega)
    have hk : k < 2 ^ 63 := by
      have : (k : Int) < 2 ^ 63 := h2
      exact_mod_cast this
    simp only [formatInt]
    rw [hd] at hp ⊢
    exact parseInt_unsigned _ _ k (digitChar_ne d).1 (digitChar_ne d).2 hp hk
  | negSucc k =>
    have hp := parseDigits_natDigits (k + 2) (k + 1) [] (by omega)
    obtain ⟨d, rest, hd⟩ := natDigits_head (k + 1) (k + 1) []
    have hk : k + 1 ≤ 2 ^ 63 := by
      have e : Int.negSucc k = -((k : Int) + 1) := rfl
      rw [e] at h1
      have : ((k : Int) + 1) ≤ 2 ^ 63 := by omega
      exact_mod_cast this
    simp only [formatInt]
    rw [hd] at hp ⊢
    exact parseInt_negative _ _ (k + 1) hp hk

theorem mapSet_last {V : Type} (acc : List (String × V)) (k : String) (v : V)
    (h : ∀ e ∈ acc, e.1 < k) : mapSet acc k v = acc ++ [(k, v)] := by
  induction acc with
  | nil => rfl
  | cons e tl ih =>
    have he : e.1 < k := h e (by simp)
    have h1 : ¬ k < e.1 := lt_asymm he
    have h2 : ¬ k = e.1 := fun hk => lt_irrefl _ (hk ▸ he)
    simp only [mapSet, h1, h2, if_false, List.cons_append]
    rw [ih (fun x hx => h x (by simp [hx]))]

theorem sortedKeys_cons {V : Type} (e : String × V) (m : List (String × V))
    (h : sortedKeys (e :: m)) : (∀ x ∈ m, e.1 < x.1) ∧ sortedKeys m := by
  unfold sortedKeys at h ⊢
  simp only [List.map_cons, List.pairwise_cons, List.mem_map, forall_exists_index, and_imp,
    forall_apply_eq_imp_iff₂] at h
  exact h

mutual
theorem decodeAny_encodeAny (pf : ParseFloat) (fmt : FormatFloat) :
    ∀ a : GoAny, GoAny.Canonical pf fmt a → decodeAny pf (encodeAny fmt a) = .ok a
  | .nil, _ => rfl
  | .bool _, _ => rfl
  | .float64 f, h => by
    simp only [GoAny.Canonical] at h
    simp [encodeAny, decodeAny, h]
  | .string _, _ => rfl
  | .slice xs, h => by
    simp only [GoAny.Canonical] at h
    simp [encodeAny, decodeAny, decodeAnyList_encode pf fmt xs h]
  | .map m, h => by
    simp only [GoAny.Canonical] at h
    simp [encodeAny, decodeAny, decodeAnyMembers_encode pf fmt m [] h.2 h.1 (by simp)]
  | .nilSlice, h => by
    simp only [GoAny.Canonical] at h
  | .nilMap, h => by
    simp only [GoAny.Canonical] at h
  | .int _, h => by
    simp only [GoAny.Canonical] at h
theorem decodeAnyList_encode (pf : ParseFloat) (fmt : FormatFloat) :
    ∀ xs : List GoAny, GoAny.CanonicalList pf fmt xs →
      decodeAnyList pf (encodeAnyList fmt xs) = .ok xs
  | [], _ => rfl
  | x :: xs, h => by
    simp only [GoAny.CanonicalList] at h
    simp [encodeAnyList, decodeAnyList, decodeAny_encodeAny pf fmt x h.1,
      decodeAnyList_encode pf fmt xs h.2]
theorem decodeAnyMembers_encode (pf : ParseFloat) (fmt : FormatFloat) :
    ∀ (m acc : List (String × GoAny)), GoAny.CanonicalEntries pf fmt m → sortedKeys m →
      (∀ e ∈ acc, ∀ x ∈ m, e.1 < x.1) →
      decodeAnyMembers pf (encodeAnyEntries fmt m) acc = .ok (acc ++ m)
  | [], acc, _, _, _ => by simp [encodeAnyEntries, decodeAnyMembers]
  | (k, v) :: m, acc, h, hs, hacc => by
    simp only [GoAny.CanonicalEntries] at h
    obtain ⟨hlt, hs'⟩ := sortedKeys_cons (k, v) m hs
    have hk : ∀ e ∈ acc, e.1 < k := fun e he => hacc e he (k, v) (by simp)
    simp only [encodeAnyEntries, decodeAnyMembers, decodeAny_encodeAny pf fmt v h.1]
    rw [mapSet_last acc k v hk, decodeAnyMembers_encode pf fmt m _ h.2 hs']
    · simp
    · intro e he x hx
      simp only [List.mem_append, List.mem_singleton] at he
      rcases he with he | rfl
      · exact hacc e he x (by simp [hx])
      · exact hlt x hx
end

theorem decodeAnyMap_encode (pf : ParseFloat) (fmt : FormatFloat) (m cur : GoMap GoAny)
    (h : validAnyMap pf fmt m) (hcur : cur = none) :
    decodeAnyMap pf (encodeAnyMap fmt m) cur = .ok m := by
  subst hcur
  cases m with
  | none => rfl
  | some l =>
    simp only [validAnyMap] at h
    simp [encodeAnyMap, decodeAnyMap, decodeAnyMembers_encode pf fmt l [] h.2 h.1 (by simp)]

theorem decodeMaintainerList_encode (pf : ParseFloat) (fmt : FormatFloat)
    (l : List (GoMap GoAny)) (h : ∀ m ∈ l, validAnyMap pf fmt m) :
    decodeMaintainerList pf (l.map (encodeAnyMap fmt)) [] = .ok l := by
  induction l with
  | nil => rfl
  | cons m tl ih =>
    simp only [List.map_cons, decodeMaintainerList, List.head?_nil, Option.getD_none,
      List.tail_nil]
    rw [decodeAnyMap_encode pf fmt m none (h m (by simp)) rfl,
      ih (fun x hx => h x (by simp [hx]))]

theorem bind_ok_eq {α β : Type} (a : α) (f : α → Except Error β) :
    (Except.ok a >>= f) = f a := rfl

theorem decodeRegistryMeta_encode (r : RegistryMeta) (h : r.Valid) :
    decodeRegistryMeta (encodeRegistryMeta r) RegistryMeta.zero = .ok r := by
  obtain ⟨v1, v2, v3, v4, v5, v6, v7, v8⟩ := h
  have k1 : lookupField MetaField.key MetaField.all "db_name" = some .DBName := by decide
  have k2 : lookupField MetaField.key MetaField.all "doc_count" = some .DocCount := by decide
  have k3 : lookupField MetaField.key MetaField.all "doc_del_count" = some .DocDelCount := by
    decide
  have k4 : lookupField MetaField.key MetaField.all "update_seq" = some .UpdateSeq := by decide
  have k5 : lookupField MetaField.key MetaField.all "purge_seq" = some .PurgeSeq := by decide
  have k6 : lookupField MetaField.key MetaField.all "compact_running" = some .CompactRunning := by
    decide
  have k7 : lookupField MetaField.key MetaField.all "disk_size" = some .DiskSize := by decide
  have k8 : lookupField MetaField.key MetaField.all "data_size" = some .DataSize := by decide
  have k9 : lookupField MetaField.key MetaField.all "instance_start_time"
      = some .InstanceStartTime := by decide
  have k10 : lookupField MetaField.key MetaField.all "disk_format_version"
      = some .DiskFormatVersion := by decide
  have k11 : lookupField MetaField.key MetaField.all "committed_update_seq"
      = some .CommittedUpdateSeq := by decide
  simp only [encodeRegistryMeta, decodeRegistryMeta, List.foldlM_cons, List.foldlM_nil,
    decodeMetaMember, k1, k2, k3, k4, k5, k6, k7, k8, k9, k10, k11, decodeMetaField,
    decodeString, decodeInt, decodeBool, parseInt_formatInt _ v1, parseInt_formatInt _ v2,
    parseInt_formatInt _ v3, parseInt_formatInt _ v4, parseInt_formatInt _ v5,
    parseInt_formatInt _ v6, parseInt_formatInt _ v7, parseInt_formatInt _ v8, Except.map,
    bind_ok_eq]
  rfl

theorem decodeTime_encode (t cur : PackageTime) : decodeTime (encodeTime t) cur = .ok t := by
  have k1 : lookupField TimeField.key [.Created, .Modified] "created" = some .Created := by
    decide
  have k2 : lookupField TimeField.key [.Created, .Modified] "modified" = some .Modified := by
    decide
  simp only [encodeTime, decodeTime, List.foldlM_cons, List.foldlM_nil, decodeTimeMember,
    k1, k2, decodeString, Except.map, bind_ok_eq]
  rfl

theorem decodeAuthor_encode (a cur : Author) : decodeAuthor (encodeAuthor a) cur = .ok a := by
  have k1 : lookupField AuthorField.key [.Name, .Email, .URL] "name" = some .Name := by decide
  have k2 : lookupField AuthorField.key [.Name, .Email, .URL] "email" = some .Email := by
    decide
  have k3 : lookupField AuthorField.key [.Name, .Email, .URL] "url" = some .URL := by decide
  simp only [encodeAuthor, decodeAuthor, List.foldlM_cons, List.foldlM_nil,
    decodeAuthorMember, k1, k2, k3, decodeString, Except.map, bind_ok_eq]
  rfl

theorem decodeRepository_encode (x cur : Repository) :
    decodeRepository (encodeRepository x) cur = .ok x := by
  have k1 : lookupField RepositoryField.key [.Typ, .URL] "type" = some .Typ := by decide
  have k2 : lookupField RepositoryField.key [.Typ, .URL] "url" = some .URL := by decide
  simp only [encodeRepository, decodeRepository, List.foldlM_cons, List.foldlM_nil,
    decodeRepositoryMember, k1, k2, decodeString, Except.map, bind_ok_eq]
  rfl

theorem decodeDist_encode (x cur : Dist) : decodeDist (encodeDist x) cur = .ok x := by
  have k1 : lookupField DistField.key [.SHASum, .Tarball] "shasum" = some .SHASum := by decide
  have k2 : lookupField DistField.key [.SHASum, .Tarball] "tarball" = some .Tarball := by
    decide
  simp only [encodeDist, decodeDist, List.foldlM_cons, List.foldlM_nil, decodeDistMember,
    k1, k2, decodeString, Except.map, bind_ok_eq]
  rfl

theorem decodeStringEntries_encode (m acc : List (String × String)) (hs : sortedKeys m)
    (hacc : ∀ e ∈ acc, ∀ x ∈ m, e.1 < x.1) :
    (m.map (fun e => (e.1, JSON.str e.2))).foldlM decodeStringEntry acc = .ok (acc ++ m) := by
  induction m generalizing acc with
  | nil => simp [List.foldlM_nil, pure, Except.pure]
  | cons e tl ih =>
    obtain ⟨hlt, hs'⟩ := sortedKeys_cons e tl hs
    have hk : ∀ x ∈ acc, x.1 < e.1 := fun x hx => hacc x hx e (by simp)
    simp only [List.map_cons, List.foldlM_cons, decodeStringEntry, decodeString, bind_ok_eq]
    rw [mapSet_last acc e.1 e.2 hk, ih _ hs']
    · simp
    · intro y hy x hx
      simp only [List.mem_append, List.mem_singleton] at hy
      rcases hy with hy | rfl
      · exact hacc y hy x (by simp [hx])
      · exact hlt x hx

theorem decodeStringMap_encode (m : GoMap String) (h : ∀ l, m = some l → sortedKeys l) :
    decodeStringMap (encodeStringMap m) none = .ok m := by
  cases m with
  | none => rfl
  | some l =>
    simp only [encodeStringMap, decodeStringMap, Option.getD_none]
    rw [decodeStringEntries_encode l [] (h l rfl) (by simp)]
    simp

theorem decodeMaintainers_encode (pf : ParseFloat) (fmt : FormatFloat)
    (ml : Option (List (GoMap GoAny)))
    (h : ∀ l, ml = some l → ∀ m ∈ l, validAnyMap pf fmt m) :
    decodeMaintainers pf (encodeMaintainers fmt ml) none = .ok ml := by
  cases ml with
  | none => rfl
  | some l =>
    simp only [encodeMaintainers, decodeMaintainers, Option.getD_none]
    rw [decodeMaintainerList_encode pf fmt l (h l rfl)]

theorem decodeVersion_encode_user (pf : ParseFloat) (fmt : FormatFloat) (v : Npm.Version)
    (u : GoAny) (v1 : validAnyMap pf fmt v.Dependencies)
    (v2 : validAnyMap pf fmt v.DevDependencies) (v3 : validAnyMap pf fmt v.Scripts)
    (v4 : decodeAny pf (encodeAny fmt v.NPMUser) = .ok u)
    (v5 : ∀ l, v.Maintainers = some l → ∀ m ∈ l, validAnyMap pf fmt m) :
    decodeVersion pf (encodeVersion fmt v) Version.zero = .ok { v with NPMUser := u } := by
  have k1 : lookupField VersionField.key VersionField.all "name" = some .Name := by decide
  have k2 : lookupField VersionField.key VersionField.all "version" = some .Version := by
    decide
  have k3 : lookupField VersionField.key VersionField.all "homepage" = some .Homepage := by
    decide
  have k4 : lookupField VersionField.key VersionField.all "Repository" = some .Repository := by
    decide
  have k5 : lookupField VersionField.key VersionField.all "dependencies"
      = some .Dependencies := by decide
  have k6 : lookupField VersionField.key VersionField.all "devDependencies"
      = some .DevDependencies := by decide
  have k7 : lookupField VersionField.key VersionField.all "scripts" = some .Scripts := by
    decide
  have k8 : lookupField VersionField.key VersionField.all "Author" = some .Author := by decide
  have k9 : lookupField VersionField.key VersionField.all "license" = some .License := by
    decide
  have k10 : lookupField VersionField.key VersionField.all "readme" = some .Readme := by decide
  have k11 : lookupField VersionField.key VersionField.all "readmeFilename"
      = some .ReadmeFilename := by decide
  have k12 : lookupField VersionField.key VersionField.all "_id" = some .ID := by decide
  have k13 : lookupField VersionField.key VersionField.all "description"
      = some .Description := by decide
  have k14 : lookupField VersionField.key VersionField.all "dist" = some .Dist := by decide
  have k15 : lookupField VersionField.key VersionField.all "_npmVersion"
      = some .NPMVersion := by decide
  have k16 : lookupField VersionField.key VersionField.all "_npmUser" = some .NPMUser := by
    decide
  have k17 : lookupField VersionField.key VersionField.all "maintainers"
      = some .Maintainers := by decide
  simp only [encodeVersion, decodeVersion, List.foldlM_cons, List.foldlM_nil,
    decodeVersionMember, k1, k2, k3, k4, k5, k6, k7, k8, k9, k10, k11, k12, k13, k14, k15,
    k16, k17, decodeVersionField, decodeString, decodeRepository_encode, decodeAuthor_encode,
    decodeDist_encode, Version.zero, decodeAnyMap_encode pf fmt _ none v1 rfl,
    decodeAnyMap_encode pf fmt _ none v2 rfl, decodeAnyMap_encode pf fmt _ none v3 rfl,
    v4, decodeMaintainers_encode pf fmt _ v5, Except.map, bind_ok_eq]
  rfl

theorem decodeVersion_encode (pf : ParseFloat) (fmt : FormatFloat) (v : Npm.Version)
    (h : Version.Valid pf fmt v) :
    decodeVersion pf (encodeVersion fmt v) Version.zero = .ok v := by
  obtain ⟨v1, v2, v3, v4, v5⟩ := h
  exact decodeVersion_encode_user pf fmt v v.NPMUser v1 v2 v3
    (decodeAny_encodeAny pf fmt _ v4) v5

theorem decodeVersionEntries_encode (pf : ParseFloat) (fmt : FormatFloat)
    (m acc : List (String × Option Npm.Version)) (hs : sortedKeys m)
    (hv : ∀ e ∈ m, ∀ v, e.2 = some v → Version.Valid pf fmt v)
    (hacc : ∀ e ∈ acc, ∀ x ∈ m, e.1 < x.1) :
    (m.map (fun e => (e.1, encodeVersionPtr fmt e.2))).foldlM (decodeVersionEntry pf) acc
      = .ok (acc ++ m) := by
  induction m generalizing acc with
  | nil => simp [List.foldlM_nil, pure, Except.pure]
  | cons e tl ih =>
    obtain ⟨hlt, hs'⟩ := sortedKeys_cons e tl hs
    have hk : ∀ x ∈ acc, x.1 < e.1 := fun x hx => hacc x hx e (by simp)
    have step : decodeVersionEntry pf acc (e.1, encodeVersionPtr fmt e.2)
        = .ok (acc ++ [e]) := by
      rcases e with ⟨k, _ | v⟩
      · simp only [decodeVersionEntry, encodeVersionPtr]
        rw [mapSet_last acc k none hk]
      · have hd := decodeVersion_encode pf fmt v (hv (k, some v) (by simp) v rfl)
        simp only [encodeVersionPtr]
        unfold decodeVersionEntry
        simp only [encodeVersion] at hd ⊢
        rw [hd]
        simp only []
        rw [mapSet_last acc k (some v) hk]
    simp only [List.map_cons, List.foldlM_cons, step, bind_ok_eq]
    rw [ih _ hs' (fun x hx => hv x (by simp [hx]))]
    · simp
    · intro y hy x hx
      simp only [List.mem_append, List.mem_singleton] at hy
      rcases hy with hy | rfl
      · exact hacc y hy x (by simp [hx])
      · exact hlt x hx

theorem decodeVersions_encode (pf : ParseFloat) (fmt : FormatFloat)
    (m : GoMap (Option Npm.Version))
    (h : ∀ l, m = some l →
      sortedKeys l ∧ ∀ e ∈ l, ∀ v, e.2 = some v → Version.Valid pf fmt v) :
    decodeVersions pf (encodeVersions fmt m) none = .ok m := by
  cases m with
  | none => rfl
  | some l =>
    simp only [encodeVersions, decodeVersions, Option.getD_none]
    rw [decodeVersionEntries_encode pf fmt l [] (h l rfl).1 (h l rfl).2 (by simp)]
    simp

theorem decodePackage_encode_versions (pf : ParseFloat) (fmt : FormatFloat) (p : Package)
    (vs : GoMap (Option Npm.Version)) (v1 : ∀ m, p.DistTags = some m → sortedKeys m)
    (v2 : decodeVersions pf (encodeVersions fmt p.Versions) none = .ok vs) :
    decodePackage pf (encodePackage fmt p) Package.zero = .ok { p with Versions := vs } := by
  have k1 : lookupField PackageField.key PackageField.all "_id" = some .ID := by decide
  have k2 : lookupField PackageField.key PackageField.all "_rev" = some .Rev := by decide
  have k3 : lookupField PackageField.key PackageField.all "name" = some .Name := by decide
  have k4 : lookupField PackageField.key PackageField.all "description"
      = some .Description := by decide
  have k5 : lookupField PackageField.key PackageField.all "dist-tags" = some .DistTags := by
    decide
  have k6 : lookupField PackageField.key PackageField.all "versions" = some .Versions := by
    decide
  have k7 : lookupField PackageField.key PackageField.all "time" = some .Time := by decide
  have k8 : lookupField PackageField.key PackageField.all "Author" = some .Author := by decide
  have k9 : lookupField PackageField.key PackageField.all "Repository"
      = some .Repository := by decide
  have k10 : lookupField PackageField.key PackageField.all "readme" = some .Readme := by decide
  simp only [encodePackage, decodePackage, List.foldlM_cons, List.foldlM_nil,
    decodePackageMember, k1, k2, k3, k4, k5, k6, k7, k8, k9, k10, decodePackageField,
    decodeString, decodeRepository_encode, decodeAuthor_encode, decodeTime_encode,
    Package.zero, decodeStringMap_encode _ v1, v2, Except.map, bind_ok_eq]
  rfl

theorem decodePackage_encode (pf : ParseFloat) (fmt : FormatFloat) (p : Package)
    (h : Package.Valid pf fmt p) :
    decodePackage pf (encodePackage fmt p) Package.zero = .ok p := by
  obtain ⟨v1, v2⟩ := h
  exact decodePackage_encode_versions pf fmt p p.Versions v1
    (decodeVersions_encode pf fmt _ v2)

set_option maxRecDepth 1000000 in
theorem intUserBody_parse :
    parseJSON intUserBody = some (encodePackage formatSmallFloat intUserPackage) := by rfl

set_option maxRecDepth 1000000 in
theorem samplePackageBody_parse :
    parseJSON samplePackageBody = some (encodePackage formatSmallFloat samplePackage) := by rfl

set_option maxRecDepth 1000000 in
theorem sampleMetaBody_parse :
    parseJSON sampleMetaBody = some (encodeRegistryMeta sampleMeta) := by rfl

theorem intUserPackage_decode :
    decodePackage parseSmallFloat (encodePackage formatSmallFloat intUserPackage)
      Package.zero = .ok floatUserPackage := by
  have hv := decodeVersion_encode_user parseSmallFloat formatSmallFloat
    { Version.zero with NPMUser := .int 1 } (.float64 { bits := 0x3FF0000000000000 })
    trivial trivial trivial
    (by
      have h1 : formatInt 1 = "1" := by decide
      have h2 : parseSmallFloat "1" = some { bits := 0x3FF0000000000000 } := by decide
      simp only [encodeAny, decodeAny, h1, h2])
    (by intro l hl; cases hl)
  refine decodePackage_encode_versions parseSmallFloat formatSmallFloat intUserPackage _
    (by intro m hm; cases hm) ?_
  simp only [intUserPackage, Package.zero, encodeVersions, decodeVersions, List.map_cons,
    List.map_nil, List.foldlM_cons, List.foldlM_nil, Option.getD_none, encodeVersionPtr]
  unfold decodeVersionEntry
  simp only [encodeVersion] at hv ⊢
  rw [hv]
  rfl

/-- C8 as stated fails: the package `intUserPackage`, whose version `1.0.0` has the `int` 1
in the loosely typed field `NPMUser`, is encoded as `intUserBody` (with `"_npmUser":1`);
when that text is the body, `GetPackage` returns without error `floatUserPackage`, in which
`NPMUser` is the `float64` 1, and a `float64` does not compare equal to an `int`. -/
theorem roundtrip_int_counterexample :
    parseJSON intUserBody = some (encodePackage formatSmallFloat intUserPackage) ∧
    (GetPackage (serveEnv (plainResponse 200 intUserBody))
        { httpClient := some DefaultClient } (.live 1) "pkg").1 =
      .ret (some floatUserPackage) (some (plainResponse 200 intUserBody)) none ∧
    GoAny.float64 { bits := 0x3FF0000000000000 } ≠ GoAny.int 1 := by
  refine ⟨intUserBody_parse, ?_, ?_⟩
  · rw [GetPackage_eq_exchange,
      exchange_response (serveEnv (plainResponse 200 intUserBody))
        { httpClient := some DefaultClient } (.live 1) _ _ DefaultClient
        (plainResponse 200 intUserBody) rfl (by decide) rfl rfl]
    have hu : UnmarshalPackage (serveEnv (plainResponse 200 intUserBody)).parseFloat
        (plainResponse 200 intUserBody).Body Package.zero = .ok floatUserPackage := by
      show UnmarshalPackage parseSmallFloat intUserBody Package.zero = .ok floatUserPackage
      simp only [UnmarshalPackage, intUserBody_parse]
      exact intUserPackage_decode
    simp only [hu]
  · intro h
    cases h

/-- C8, amended: decode undoes encode for the values the decoder can produce.  For every
`RegistryMeta` with `int` fields of 64 bits, and for every `Package` whose loosely typed
fields (`Dependencies`, `DevDependencies`, `Scripts`, `NPMUser`, `Maintainers` of its
versions) hold only `nil`, `bool`, `string`, `[]any`, `map[string]any` and `float64` values
that formatting and parsing give back, when the body of the response is a JSON text of the
encoding of the value, the operation that targets the shape returns a nil error and the
value itself. -/
theorem decode_undoes_encode (env : Env) (fmt : FormatFloat) (c : Client) (ctx : Context)
    (packageName version : String) (rm : RegistryMeta) (p : Package) (r₁ r₂ : Response)
    (hc : c.httpClient ≠ none)
    (hrm : rm.Valid) (hp : Package.Valid env.parseFloat fmt p)
    (hread₁ : r₁.BodyErr = none) (hbody₁ : parseJSON r₁.Body = some (encodeRegistryMeta rm))
    (hread₂ : r₂.BodyErr = none) (hbody₂ : parseJSON r₂.Body = some (encodePackage fmt p)) :
    (env.requestError ctx MethodGet (BaseURL ++ "/") = none →
      (GetMeta (withResponse env r₁) c ctx).1 = .ret (some rm) (some r₁) none) ∧
    (env.requestError ctx MethodGet (BaseURL ++ "/" ++ packageName) = none →
      (GetPackage (withResponse env r₂) c ctx packageName).1
        = .ret (some p) (some r₂) none) ∧
    (env.requestError ctx MethodGet (BaseURL ++ "/" ++ packageName ++ "/" ++ version)
        = none →
      (GetPackageVersion (withResponse env r₂) c ctx packageName version).1
        = .ret (some p) (some r₂) none) := by
  have hm : UnmarshalRegistryMeta r₁.Body RegistryMeta.zero = .ok rm := by
    simp only [UnmarshalRegistryMeta, hbody₁]
    exact decodeRegistryMeta_encode rm hrm
  have hk : UnmarshalPackage env.parseFloat r₂.Body Package.zero = .ok p := by
    simp only [UnmarshalPackage, hbody₂]
    exact decodePackage_encode env.parseFloat fmt p hp
  simp only [GetMeta_eq_exchange, GetPackage_eq_exchange, GetPackageVersion_eq_exchange]
  exact ⟨fun hq => exchange_withResponse env c ctx _ _ r₁ rm hc hq hread₁ hm,
    fun hq => exchange_withResponse env c ctx _ _ r₂ p hc hq hread₂ hk,
    fun hq => exchange_withResponse env c ctx _ _ r₂ p hc hq hread₂ hk⟩


theorem sortedKeys_pair {V : Type} (a b : String × V) (h : a.1.toList < b.1.toList) :
    sortedKeys [a, b] := by
  simp only [sortedKeys, List.map_cons, List.map_nil, List.pairwise_cons, List.mem_singleton,
    forall_eq, List.not_mem_nil, false_implies, implies_true, List.Pairwise.nil, and_true,
    String.lt_iff_toList_lt]
  exact h

theorem samplePackage_valid : Package.Valid parseSmallFloat formatSmallFloat samplePackage := by
  have hf : parseSmallFloat (formatSmallFloat (floatOfNat 3)) = some (floatOfNat 3) := by
    decide
  refine ⟨?_, ?_⟩
  · intro m hm
    cases hm
    simp [sortedKeys]
  · intro m hm
    cases hm
    refine ⟨sortedKeys_pair _ _ (by decide), ?_⟩
    intro e he v hv
    simp only [List.mem_cons, List.mem_singleton, List.not_mem_nil, or_false] at he
    rcases he with rfl | rfl
    · cases hv
      refine ⟨?_, trivial, trivial, ?_, ?_⟩
      · refine ⟨sortedKeys_pair _ _ (by decide), ?_⟩
        simp only [GoAny.CanonicalEntries, GoAny.Canonical, GoAny.CanonicalList, hf, and_self]
      · simp only [GoAny.Canonical, GoAny.CanonicalEntries, and_true]
        simp [sortedKeys]
      · intro l hl m hm
        cases hl
        simp only [List.mem_cons, List.mem_singleton, List.not_mem_nil, or_false] at hm
        rcases hm with rfl | rfl
        · simp only [validAnyMap, GoAny.CanonicalEntries, GoAny.Canonical, and_true]
          simp [sortedKeys]
        · trivial
    · cases hv

theorem decode_undoes_encode_witness :
    (GetMeta (withResponse echoEnv (plainResponse 200 sampleMetaBody))
        { httpClient := some DefaultClient } (.live 1)).1 =
      .ret (some sampleMeta) (some (plainResponse 200 sampleMetaBody)) none ∧
    (GetPackage (withResponse echoEnv (plainResponse 200 samplePackageBody))
        { httpClient := some DefaultClient } (.live 1) "left-pad").1 =
      .ret (some samplePackage) (some (plainResponse 200 samplePackageBody)) none ∧
    (GetPackageVersion (withResponse echoEnv (plainResponse 200 samplePackageBody))
        { httpClient := some DefaultClient } (.live 1) "left-pad" "1.3.0").1 =
      .ret (some samplePackage) (some (plainResponse 200 samplePackageBody)) none :=
  have h := decode_undoes_encode echoEnv formatSmallFloat { httpClient := some DefaultClient }
    (.live 1) "left-pad" "1.3.0" sampleMeta samplePackage
    (plainResponse 200 sampleMetaBody) (plainResponse 200 samplePackageBody)
    (by decide) (by simp only [RegistryMeta.Valid, inInt64]; decide) samplePackage_valid
    rfl sampleMetaBody_parse rfl samplePackageBody_parse
  ⟨h.1 (by decide), h.2.1 (by decide), h.2.2 (by decide)⟩

theorem replicate_shift (k : Nat) (c : Char) (rest : List Char) :
    c :: (List.replicate k c ++ rest) = List.replicate k c ++ c :: rest := by
  induction k with
  | zero => rfl
  | succ j ih => simp only [List.replicate_succ, List.cons_append, ih]

theorem parseValue_nested (n fuel depth : Nat) (rest : List Char)
    (hd : depth + (n + 1) ≤ maxNestingDepth) (hf : 2 * (n + 1) ≤ fuel) :
    parseValue fuel depth
        (List.replicate (n + 1) '[' ++ (List.replicate (n + 1) ']' ++ rest)) =
      some (nestedArrays n, rest) := by
  have sp1 : isSpace ']' = false := by decide
  have sp2 : isSpace '[' = false := by decide
  induction n generalizing fuel depth rest with
  | zero =>
    obtain ⟨f, rfl⟩ : ∃ f, fuel = f + 1 := ⟨fuel - 1, by omega⟩
    have h1 : ¬ maxNestingDepth ≤ depth := by omega
    simp [parseValue, List.replicate, h1, skipSpace, nestedArrays, sp1]
  | succ k ih =>
    obtain ⟨f, rfl⟩ : ∃ f, fuel = f + 1 + 1 := ⟨fuel - 2, by omega⟩
    have h1 : ¬ maxNestingDepth ≤ depth := by omega
    have hin := ih f (depth + 1) (']' :: rest) (by omega) (by omega)
    have e : List.replicate (k + 1 + 1) '[' ++ (List.replicate (k + 1 + 1) ']' ++ rest) =
        '[' :: ('[' :: (List.replicate k '[' ++
          (List.replicate (k + 1) ']' ++ (']' :: rest)))) := by
      simp only [List.replicate_succ, List.cons_append, List.cons.injEq, true_and]
      rw [replicate_shift k ']' rest]
    have hin' : parseValue f (depth + 1)
        ('[' :: (List.replicate k '[' ++ (List.replicate (k + 1) ']' ++ (']' :: rest)))) =
        some (nestedArrays k, ']' :: rest) := by
      simpa only [List.replicate_succ, List.cons_append] using hin
    rw [e]
    simp only [parseValue, h1, skipSpace, sp2]
    simp [parseElems, hin', skipSpace, sp1, nestedArrays]

theorem parseValue_too_deep (n fuel depth : Nat) (rest : List Char)
    (hd : maxNestingDepth < depth + n) (hn : 0 < n) :
    parseValue fuel depth (List.replicate n '[' ++ rest) = none := by
  have sp2 : isSpace '[' = false := by decide
  induction n generalizing fuel depth with
  | zero => omega
  | succ k ih =>
    cases fuel with
    | zero => simp [parseValue]
    | succ f =>
      by_cases h1 : maxNestingDepth ≤ depth
      · simp [parseValue, List.replicate_succ, h1]
      · cases k with
        | zero => omega
        | succ j =>
          have hin : ∀ g, parseValue g (depth + 1)
              ('[' :: (List.replicate j '[' ++ rest)) = none := by
            intro g
            have := ih g (depth + 1) (by omega) (by omega)
            simpa only [List.replicate_succ, List.cons_append] using this
          simp only [List.replicate_succ, List.cons_append, parseValue, h1, skipSpace, sp2]
          cases f with
          | zero => simp [parseElems]
          | succ g => simp [parseElems, hin]

theorem skipSpace_open (n : Nat) (rest : List Char) :
    skipSpace (List.replicate (n + 1) '[' ++ rest) = List.replicate (n + 1) '[' ++ rest := by
  have sp2 : isSpace '[' = false := by decide
  simp only [List.replicate_succ, List.cons_append, skipSpace, sp2]
  rfl

theorem skipSpace_cons (c : Char) (t : List Char) (h : isSpace c = false) :
    skipSpace (c :: t) = c :: t := by
  simp only [skipSpace, h]
  rfl

theorem parseJSON_of_parseValue (body : String) (v : JSON)
    (h : parseValue (2 * body.data.length + 2) 0 (skipSpace body.data) = some (v, [])) :
    parseJSON body = some v := by
  unfold parseJSON
  rw [h]
  rfl

theorem parseJSON_of_parseValue_none (body : String)
    (h : parseValue (2 * body.data.length + 2) 0 (skipSpace body.data) = none) :
    parseJSON body = none := by
  unfold parseJSON
  rw [h]

theorem deepValueBody_data : deepValueBody.data =
    List.replicate (9999 + 1) '[' ++ (List.replicate (9999 + 1) ']' ++ []) := by
  rw [List.append_nil]
  rfl

theorem deepValueBody_length : deepValueBody.data.length = 20000 := by
  rw [deepValueBody_data]
  simp only [List.length_append, List.length_replicate, List.length_nil]

theorem deepValueBody_parse : parseJSON deepValueBody = some (nestedArrays 9999) := by
  apply parseJSON_of_parseValue
  rw [deepValueBody_length, deepValueBody_data, skipSpace_open]
  exact parseValue_nested 9999 _ 0 [] (by simp only [maxNestingDepth]; omega) (by omega)

theorem parseValue_member_none (fuel : Nat) (t : List Char)
    (hdeep : ∀ g, parseValue g 1 (skipSpace t) = none) :
    parseValue fuel 0 ('{' :: '"' :: 'x' :: '"' :: ':' :: t) = none := by
  have sp1 : isSpace '"' = false := by decide
  have sp2 : isSpace ':' = false := by decide
  have hmax : ¬ maxNestingDepth ≤ 0 := by simp [maxNestingDepth]
  have hs : scanString ('x' :: '"' :: ':' :: t) = some (['x'], ':' :: t) := by
    simp [scanString]
  cases fuel with
  | zero => simp [parseValue]
  | succ f =>
    cases f with
    | zero => simp [parseValue, hmax, skipSpace, sp1, parseMembers]
    | succ g =>
      have h1 : skipSpace ('"' :: 'x' :: '"' :: ':' :: t) = '"' :: 'x' :: '"' :: ':' :: t :=
        skipSpace_cons _ _ sp1
      have h2 : skipSpace (':' :: t) = ':' :: t := skipSpace_cons _ _ sp2
      have hm : parseMembers (g + 1) 1 ('"' :: 'x' :: '"' :: ':' :: t) = none := by
        simp only [parseMembers, hs, h2, hdeep]
      have hm' : parseMembers (g + 1) (0 + 1) ('"' :: 'x' :: '"' :: ':' :: t) = none := hm
      simp only [parseValue, hmax, h1]
      simp [hm']

theorem deepMemberBody_parse : parseJSON deepMemberBody = none := by
  apply parseJSON_of_parseValue_none
  have sp : isSpace '{' = false := by decide
  have e : deepMemberBody.data =
      '{' :: '"' :: 'x' :: '"' :: ':' :: (nestedText 10000 ++ ['}']) := rfl
  rw [e, skipSpace_cons _ _ sp]
  apply parseValue_member_none
  intro g
  have e2 : nestedText 10000 ++ ['}'] =
      List.replicate (9999 + 1) '[' ++ (List.replicate 10000 ']' ++ ['}']) := by
    unfold nestedText
    rw [List.append_assoc]
  rw [e2, skipSpace_open]
  exact parseValue_too_deep (9999 + 1) g 1 _ (by simp only [maxNestingDepth]; omega)
    (by omega)

theorem getMeta_serve_invalid (status : Int) (body : String) (h : parseJSON body = none) :
    (GetMeta (serveEnv (plainResponse status body))
        { httpClient := some DefaultClient } (.live 1)).1 =
      .ret none (some (plainResponse status body)) (some .badJSON) := by
  rw [GetMeta_eq_exchange,
    exchange_response (serveEnv (plainResponse status body))
      { httpClient := some DefaultClient } (.live 1) (BaseURL ++ "/") _ DefaultClient
      (plainResponse status body) rfl
      (show rejectControl (.live 1) MethodGet (BaseURL ++ "/") = none by decide) rfl rfl]
  simp only [plainResponse, UnmarshalRegistryMeta, h]

set_option maxRecDepth 100000 in
/-- C7 as stated fails.  The body `{}` decodes into the zero `RegistryMeta`.  The text
`deepValueBody`, 10000 nested arrays, is a JSON value the decoder accepts, and the key `x`
selects no field of `RegistryMeta`; yet for the body `deepMemberBody`, the object with the
single member `x` whose value is that text, `GetMeta` returns the syntax error of the
decoder and no value, because the member lies 10001 levels deep. -/
theorem unknown_deep_member_counterexample :
    parseJSON "\x7b\x7d" = some (.obj []) ∧
    (GetMeta (serveEnv (plainResponse 200 "\x7b\x7d"))
        { httpClient := some DefaultClient } (.live 1)).1 =
      .ret (some RegistryMeta.zero) (some (plainResponse 200 "\x7b\x7d")) none ∧
    parseJSON deepValueBody = some (nestedArrays 9999) ∧
    lookupField MetaField.key MetaField.all "x" = none ∧
    deepMemberBody.data =
      '{' :: '"' :: 'x' :: '"' :: ':' :: (deepValueBody.data ++ ['}']) ∧
    (GetMeta (serveEnv (plainResponse 200 deepMemberBody))
        { httpClient := some DefaultClient } (.live 1)).1 =
      .ret none (some (plainResponse 200 deepMemberBody)) (some .badJSON) :=
  ⟨rfl, rfl, deepValueBody_parse, by decide, rfl,
    getMeta_serve_invalid 200 deepMemberBody deepMemberBody_parse⟩

end Npm
